import Mathlib

/-!
dns-blocker: the request engine and the wire codec

A shallow embedding of `src/source/process.cc` (the receiver loop, the worker,
`sendError`, `blockAddress`, `isRandomDomain`, `loadRules`) and of `src/dns.cc`
(`dns_encode`, `dns_decode`), followed by the properties proved about them.

Conventions of the embedding.

* A `std::string` is a Lean `String`; each `Char` of it stands for one `char`
  of the C++ string. Where the source goes through a C string (`c_str()`), the
  text stops at the first NUL character, and the embedding does the same.
* Unsigned fields (`uint16_t`, `uint32_t`, `uint8_t`) are `Nat`; a narrowing
  cast of the source is an explicit `%`.
* The socket is a list of datagrams handed to `conn_->send`, each given as the
  message that `response.write` serialises. Log output is left out.
* `request.questions[0]` on an empty vector is undefined behaviour in the
  source; the worker of the embedding returns `none` there.
-/

set_option autoImplicit false

namespace dnsblocker

/-! ## Constants of the headers that are not part of the sources at hand -/

/-- Modelled from the spec: the `DNS_TYPE_A` macro of `dns.hh` (query type A of
the wire protocol, RFC 1035 value 1). -/
def DNS_TYPE_A : Nat := 1

/-- Modelled from the spec: the `DNS_TYPE_AAAA` macro of `dns.hh` (query type
AAAA of the wire protocol, value 28). -/
def DNS_TYPE_AAAA : Nat := 28

/-- Modelled from the spec: the `DNS_FLAG_QR` macro of `dns.hh`, the QR bit of
the 16-bit flags word (QR, OPCODE, AA, TC, RD, RA, Z, RCODE from the top). -/
def DNS_FLAG_QR : Nat := 0x8000

/-- Modelled from the spec: the `DNS_FLAG_RD` macro of `dns.hh`, the RD bit of
the 16-bit flags word. -/
def DNS_FLAG_RD : Nat := 0x0100

/-- Modelled from the spec: the `DNS_FLAG_RA` macro of `dns.hh`, the RA bit of
the 16-bit flags word. -/
def DNS_FLAG_RA : Nat := 0x0080

/-- Modelled from the spec: the `DNS_RCODE_SERVFAIL` macro of `dns.hh`. -/
def DNS_RCODE_SERVFAIL : Nat := 2

/-- Modelled from the spec: the `DNS_RCODE_NXDOMAIN` macro of `dns.hh`. -/
def DNS_RCODE_NXDOMAIN : Nat := 3

/-- Modelled from the spec: the `DNS_RCODE_REFUSED` macro of `dns.hh`. -/
def DNS_RCODE_REFUSED : Nat := 5

/-- Modelled from the spec: the `DNSB_STATUS_CACHE` result of the cache
(source `Cache` of `resolve`); the four results are pairwise distinct. -/
def DNSB_STATUS_CACHE : Int := 1

/-- Modelled from the spec: the `DNSB_STATUS_RECURSIVE` result of the cache
(source `Recursive` of `resolve`). -/
def DNSB_STATUS_RECURSIVE : Int := 2

/-- Modelled from the spec: the `DNSB_STATUS_NXDOMAIN` result of the cache
(source `NXDomain` of `resolve`). -/
def DNSB_STATUS_NXDOMAIN : Int := 3

/-- Modelled from the spec: the `DNSB_STATUS_FAILURE` result of the cache
(source `Failure` of `resolve`). -/
def DNSB_STATUS_FAILURE : Int := 4

/-- Modelled from the spec: the `DNS_BLOCKED_IPV4_ADDRESS` sentinel of the
configuration header (the spec's example value 127.0.0.1). -/
def DNS_BLOCKED_IPV4_ADDRESS : Nat := 0x7F000001

/-- Modelled from the spec: the `DNS_BLOCKED_IPV6_ADDRESS` sentinel of the
configuration header, eight 16-bit groups (the spec's example value ::1). -/
def DNS_BLOCKED_IPV6_ADDRESS : List Nat := [0, 0, 0, 0, 0, 0, 0, 1]

/-- Modelled from the spec: the `DNS_ANSWER_TTL` constant of the configuration
header (the spec's example value 300 seconds). -/
def DNS_ANSWER_TTL : Nat := 300

/-! ## Data model used by `process.cc` -/

/-- Modelled from the spec: the `Address` type of the socket header, a tagged
IPv4/IPv6 value with the presentation name of the upstream; a default
constructed address is all zero. -/
structure Address where
  type : Nat := 0
  ipv4 : Nat := 0
  ipv6 : List Nat := [0, 0, 0, 0, 0, 0, 0, 0]
  name : String := ""
deriving DecidableEq, Repr

/-- Remote UDP endpoint of a datagram. -/
structure Endpoint where
  address : Address := {}
  port : Nat := 0
deriving DecidableEq, Repr

/-- Header as `process.cc` uses it: `id`, the `flags` word and the `rcode`
kept in a field of its own; the constructor zeroes every field. -/
structure dns_header_t where
  id : Nat := 0
  flags : Nat := 0
  rcode : Nat := 0
deriving DecidableEq, Repr

/-- Question entry: `qname`, `type`, `clazz`. -/
structure dns_question_t where
  qname : String := ""
  type : Nat := 0
  clazz : Nat := 0
deriving DecidableEq, Repr

/-- Resource record as the worker fills it. -/
structure dns_record_t where
  qname : String := ""
  type : Nat := 0
  clazz : Nat := 0
  ttl : Nat := 0
  rdata : Address := {}
deriving DecidableEq, Repr

/-- Message: header, questions, answers. -/
structure dns_message_t where
  header : dns_header_t := {}
  questions : List dns_question_t := []
  answers : List dns_record_t := []
deriving DecidableEq, Repr

/-- A datagram handed to `conn_->send`, as the message that was serialised. -/
abbrev Datagram := Endpoint × dns_message_t

/-- Job of the queue: the remote endpoint and the parsed request. -/
structure Job where
  endpoint : Endpoint
  request : dns_message_t
deriving DecidableEq, Repr

/-- Test `flags & mask`: the value is non-zero. -/
def flagSet (flags mask : Nat) : Bool := (flags &&& mask) != 0

/-! ## `Processor::sendError` and `blockAddress` -/

/-- Source `Processor::sendError`: nothing is sent for a request without a question;
otherwise a fresh response takes the request's id, the QR flag, the first
question and the rcode (narrowed to `uint8_t`), and is sent. The fields of the
local `response` are followed one by one from their zero state; the value is
the list of datagrams sent. -/
def sendError (request : dns_message_t) (rcode : Nat) (endpoint : Endpoint) : List Datagram :=
  match request.questions with
  | [] => []
  | q :: _ =>
    -- dns_message_t response;
    let flags : Nat := 0
    let questions : List dns_question_t := []
    let answers : List dns_record_t := []
    -- response.header.id = request.header.id;
    let id := request.header.id
    -- response.header.flags |= DNS_FLAG_QR;
    let flags := flags ||| DNS_FLAG_QR
    -- response.questions.push_back(request.questions[0]);
    let questions := questions ++ [q]
    -- response.header.rcode = (uint8_t) rcode;
    let rc := rcode % 256
    -- response.write(bio); conn_->send(endpoint, bio.data(), bio.cursor());
    [(endpoint, { header := { id := id, flags := flags, rcode := rc },
                  questions := questions, answers := answers })]

/-- Source `blockAddress`: the sentinel address for a query type. -/
def blockAddress (type : Nat) (address : Address) : Address :=
  let address := { address with type := type }
  if type = DNS_TYPE_A then
    { address with ipv4 := DNS_BLOCKED_IPV4_ADDRESS }
  else
    { address with ipv6 := DNS_BLOCKED_IPV6_ADDRESS }

/-! ## IEEE binary32 arithmetic, as far as `isRandomDomain` needs it

The last test of `isRandomDomain` divides two `float`s and compares with the
literal `0.3F`. The values involved are quotients of counters, far inside the
normal range, so a value is kept as `mant * 2 ^ exp` with
`2 ^ 23 ≤ mant < 2 ^ 24` (or `mant = 0` for zero), and every operation rounds
the exact result to nearest, ties to even. -/

/-- A finite, non-negative binary32 value `mant * 2 ^ exp`. -/
structure F32 where
  mant : Nat
  exp : Int
deriving DecidableEq, Repr

/-- Halving count: `log2Aux fuel n` is the floor of the binary logarithm of `n`
when `n ≤ fuel` (zero for `n < 2`). -/
def log2Aux : Nat → Nat → Nat
  | 0, _ => 0
  | fuel + 1, n => if n < 2 then 0 else log2Aux fuel (n / 2) + 1

/-- Floor of the binary logarithm (the position of the leading bit). -/
def ilog2 (n : Nat) : Nat := log2Aux n n

/-- Nearest binary32 value to the fraction `n / d` (ties to even); zero when
`n = 0`. The fraction is scaled by a power of two so that its integer part has
exactly 24 bits, and the remainder decides the rounding. -/
def F32.round (n d : Nat) : F32 :=
  if n = 0 ∨ d = 0 then ⟨0, 0⟩
  else
    let k : Int := 24 - ((ilog2 n : Int) - (ilog2 d : Int))
    let N := if 0 ≤ k then n * 2 ^ k.toNat else n
    let D := if 0 ≤ k then d else d * 2 ^ (-k).toNat
    let big := decide (2 ^ 24 ≤ N / D)
    let D := if big then 2 * D else D
    let k := if big then k - 1 else k
    let q := N / D
    let r := N % D
    let m := if D < 2 * r ∨ (2 * r = D ∧ q % 2 = 1) then q + 1 else q
    if m = 2 ^ 24 then ⟨2 ^ 23, 1 - k⟩ else ⟨m, -k⟩

/-- Conversion `(float) n` of a non-negative integer. -/
def F32.ofNat (n : Nat) : F32 := F32.round n 1

/-- Division `x / y` of two values, rounded; `y` is non-zero where the source
divides (the length of a label of at least ten characters). -/
def F32.div (x y : F32) : F32 :=
  let e := min x.exp y.exp
  F32.round (x.mant * 2 ^ (x.exp - e).toNat) (y.mant * 2 ^ (y.exp - e).toNat)

/-- Comparison `x < y` of two values. -/
def F32.lt (x y : F32) : Bool :=
  let e := min x.exp y.exp
  decide (x.mant * 2 ^ (x.exp - e).toNat < y.mant * 2 ^ (y.exp - e).toNat)

/-- The literal `0.3F`: the binary32 value nearest to 3/10. -/
def F32.lit03 : F32 := F32.round 3 10

/-! ## `Processor::isRandomDomain` -/

/-- The text a `const char *` denotes: the characters before the first NUL. -/
def cstr (s : List Char) : List Char := s.takeWhile (fun c => c != '\x00')

/-- Test `hay.find(needle) != npos`: the needle occurs in the text. -/
def hasSubstr (needle : List Char) : List Char → Bool
  | [] => needle.isPrefixOf []
  | c :: cs => needle.isPrefixOf (c :: cs) || hasSubstr needle cs

/-- Number of `'.'` characters, the counter `i` of the label guard. -/
def countDots (s : List Char) : Nat := (s.filter (fun c => c == '.')).length

/-- Value of `name.substr(0, name.find('.'))`: the text before the first `'.'`. -/
def firstLabel (s : List Char) : List Char := s.takeWhile (fun c => c != '.')

/-- Library `isdigit` on a character of the label. -/
def isdigit (c : Char) : Bool := decide ('0' ≤ c) && decide (c ≤ '9')

/-- Test `strchr("aeiouAEIOU", c) != nullptr` for a non-NUL character. -/
def isVowel (c : Char) : Bool := "aeiouAEIOU".toList.contains c

/-- Counters of the scan loop of `isRandomDomain`. The `char` and `int`
counters are natural numbers: `gs` never exceeds one and the others are
bounded by the length of the label. -/
structure Scan where
  gon : Nat := 0
  gs : Nat := 0
  bgs : Nat := 0
  vc : Nat := 0
  cc : Nat := 0
deriving DecidableEq, Repr

/-- One iteration of the scan loop on the character `c`. -/
def scanStep (s : Scan) (c : Char) : Scan :=
  let s :=
    if isdigit c then { s with gs := s.gs + 1 }
    else if isVowel c then { s with vc := s.vc + 1 }
    else { s with cc := s.cc + 1 }
  if 0 < s.gs then
    let s := { s with gon := s.gon + 1 }
    let s := if s.bgs < s.gs then { s with bgs := s.gs } else s
    { s with gs := 0 }
  else s

/-- The scan loop `while (*c != 0)` over `name.c_str()`. -/
def scan (label : List Char) : Scan := (cstr label).foldl scanStep {}

/-- The leading `"www."` strip: `name = name.c_str() + 4` when the name starts
with `"www."`. -/
def stripWww (name : List Char) : List Char :=
  if "www.".toList.isPrefixOf name then cstr (name.drop 4) else name

/-- The label guard: without `"cloudfront"` in the name, more than one `'.'`
makes `isRandomDomain` return false. -/
def tooManyLabels (name : List Char) : Bool :=
  !hasSubstr "cloudfront".toList name && decide (1 < countDots name)

/-- The part of `isRandomDomain` after the label guard, on the stripped name:
the first label is cut off, measured and scanned. -/
def isRandomLabel (name : List Char) : Bool :=
  if !name.contains '.' then false
  else
    let name := firstLabel name
    if name.length < 10 then false
    else
      let s := scan name
      if 4 < s.bgs then true
      else if 1 < s.gon then true
      else if F32.lt (F32.div (F32.ofNat s.vc) (F32.ofNat name.length)) F32.lit03 then true
      else false

/-- Source `Processor::isRandomDomain`: the strip, the label guard, then the
label test. -/
def isRandomDomain (name : String) : Bool :=
  let name := stripWww name.toList
  if tooManyLabels name then false
  else isRandomLabel name

/-! ## The random-label test as the specification words it -/

/-- Lengths of the maximal runs of consecutive ASCII digits of a label, left to
right; `cur` is the length of the run being read. -/
def digitRunsFrom : List Char → Nat → List Nat
  | [], cur => if 0 < cur then [cur] else []
  | c :: cs, cur =>
    if isdigit c then digitRunsFrom cs (cur + 1)
    else if 0 < cur then cur :: digitRunsFrom cs 0
    else digitRunsFrom cs 0

/-- Lengths of the maximal digit runs of a label. -/
def digitRuns (label : List Char) : List Nat := digitRunsFrom label 0

/-- The specification's test on the first label `L`: `|L| ≥ 10` and one of
`bgs ≥ 5` (longest maximal digit run), `gon ≥ 2` (number of maximal digit runs),
`vc / |L| < 0.30` (`vc` the number of characters in `aeiouAEIOU`; the exact
ratio, as `10 * vc < 3 * |L|`). -/
def specRandomLabel (label : List Char) : Bool :=
  let bgs := (digitRuns label).foldl max 0
  let gon := (digitRuns label).length
  let vc := (label.filter isVowel).length
  decide (10 ≤ label.length) &&
    (decide (5 ≤ bgs) || decide (2 ≤ gon) || decide (10 * vc < 3 * label.length))

/-! ## The name trees and the cache, seen from `process.cc` -/

/-- Interface of `Tree<uint8_t>` (its header is not part of the sources at
hand) as `process.cc` uses it: `clear`, `add(line, 0, &line)` giving the result
code, the cleaned line and the new tree, and `match(name) != nullptr`. -/
structure TreeOps (T : Type) where
  clear : T → T
  add : T → String → Int × String × T
  match_ : T → String → Bool

/-- What `cache_->resolve(qname, type, dnsAddress, address)` hands back: the
status and the two addresses written through the references. The cache and the
upstream behind it are outside `process.cc`; the worker sees them as a
function of the query. -/
structure Resolved where
  result : Int
  dnsAddress : Address := {}
  address : Address := {}
deriving DecidableEq, Repr

/-- The worker's view of the engine: mode flags and the two trees. -/
structure Processor (T : Type) where
  useHeuristics_ : Bool
  useFiltering_ : Bool
  blacklist_ : T
  whitelist_ : T

/-! ## `Processor::process`: one iteration of the worker on a popped job -/

/-- Locals of one worker iteration after the policy and lookup steps, with the
calls made to `cache_->resolve`. -/
structure Lookup where
  result : Int := 0
  dnsAddress : Address := {}
  address : Address := {}
  resolved : List (String × Nat) := []
deriving DecidableEq, Repr

/-- Everything one worker iteration decides and does. -/
structure Worked where
  isHeuristic : Bool
  isBlocked : Bool
  result : Int
  address : Address
  dnsAddress : Address
  resolved : List (String × Nat)
  sent : List Datagram
deriving DecidableEq, Repr

/-- The value `isHeuristic` has after the policy block of the worker. -/
def heuristicVerdict {T : Type} (tree : TreeOps T) (object : Processor T) (qname : String) : Bool :=
  if object.useFiltering_ then
    if tree.match_ object.whitelist_ qname = false then
      if object.useHeuristics_ then isRandomDomain qname else false
    else false
  else false

/-- The value `isBlocked` has after the policy block of the worker. -/
def blockedVerdict {T : Type} (tree : TreeOps T) (object : Processor T) (qname : String) : Bool :=
  if object.useFiltering_ then
    if tree.match_ object.whitelist_ qname = false then
      let isBlocked := if object.useHeuristics_ then isRandomDomain qname else false
      if !isBlocked then tree.match_ object.blacklist_ qname else isBlocked
    else false
  else false

/-- The lookup step: a name that is not blocked and has no period, or comes
without RD, is NXDOMAIN without a call to the cache; a blocked name gets the
sentinel address. -/
def lookup (resolve : String → Nat → Resolved) (request : dns_message_t)
    (q : dns_question_t) (isBlocked : Bool) : Lookup :=
  if !isBlocked then
    if !q.qname.toList.contains '.' then
      { result := DNSB_STATUS_NXDOMAIN }
    else if flagSet request.header.flags DNS_FLAG_RD then
      let r := resolve q.qname q.type
      { result := r.result, dnsAddress := r.dnsAddress, address := r.address,
        resolved := [(q.qname, q.type)] }
    else
      { result := DNSB_STATUS_NXDOMAIN }
  else
    { address := blockAddress q.type {} }

/-- The flags word of the answer response: from zero, QR is set, and RA and
RD are set when the request had RD. -/
def answerFlags (requestFlags : Nat) : Nat :=
  let flags : Nat := 0
  -- response.header.flags |= DNS_FLAG_QR;
  let flags := flags ||| DNS_FLAG_QR
  -- if (request.header.flags & DNS_FLAG_RD)
  if flagSet requestFlags DNS_FLAG_RD then
    -- response.header.flags |= DNS_FLAG_RA; response.header.flags |= DNS_FLAG_RD;
    (flags ||| DNS_FLAG_RA) ||| DNS_FLAG_RD
  else flags

/-- The answer response of the worker: the request's id, the flags of
`answerFlags`, the request's first question and one answer record that takes
name, type and class from the question, `DNS_ANSWER_TTL` and the address. -/
def answerResponse (request : dns_message_t) (q : dns_question_t) (address : Address) :
    dns_message_t :=
  -- dns_record_t answer;
  let answer : dns_record_t := {}
  let answer := { answer with qname := q.qname }
  let answer := { answer with type := q.type }
  let answer := { answer with clazz := q.clazz }
  let answer := { answer with ttl := DNS_ANSWER_TTL }
  let answer := { answer with rdata := address }
  { header := { id := request.header.id, flags := answerFlags request.header.flags, rcode := 0 },
    questions := [] ++ [q],
    answers := [] ++ [answer] }

/-- The body of the worker loop in `Processor::process` for a popped job. -/
def process {T : Type} (tree : TreeOps T) (resolve : String → Nat → Resolved)
    (object : Processor T) (job : Job) : Option Worked :=
  match job.request.questions with
  | [] => none
  | q :: _ =>
    let endpoint := job.endpoint
    let request := job.request
    let isHeuristic := heuristicVerdict tree object q.qname
    let isBlocked := blockedVerdict tree object q.qname
    let l := lookup resolve request q isBlocked
    let sent :=
      if !isBlocked && l.result != DNSB_STATUS_CACHE && l.result != DNSB_STATUS_RECURSIVE then
        if l.result == DNSB_STATUS_NXDOMAIN then
          sendError request DNS_RCODE_NXDOMAIN endpoint
        else
          sendError request DNS_RCODE_SERVFAIL endpoint
      else
        [(endpoint, answerResponse request q l.address)]
    some { isHeuristic := isHeuristic, isBlocked := isBlocked, result := l.result,
           address := l.address, dnsAddress := l.dnsAddress, resolved := l.resolved,
           sent := sent }

/-! ## `Processor::run`: the receiver loop -/

/-- Source `Processor::push`: the job goes to the back of the queue. -/
def push (pending : List Job) (job : Job) : List Job := pending ++ [job]

/-- Source `Processor::pop`: the job at the front, if any. -/
def pop (pending : List Job) : Option Job × List Job :=
  match pending with
  | [] => (none, [])
  | job :: rest => (some job, rest)

/-- The type test of the receiver; `ipv6` says whether `DNS_IPV6_EXPERIMENT`
is defined. The value is true when the request is refused. -/
def refusedType (ipv6 : Bool) (type : Nat) : Bool :=
  if ipv6 then decide (type ≠ DNS_TYPE_A ∧ type ≠ DNS_TYPE_AAAA)
  else decide (type ≠ DNS_TYPE_A)

/-- State of the receiver loop: the job queue and the datagrams sent so far. -/
structure Receiver where
  pending_ : List Job := []
  sent : List Datagram := []
deriving DecidableEq, Repr

/-- The local `type` of the receiver: zero, or the type of the question when
the request has exactly one. -/
def questionType (request : dns_message_t) : Nat :=
  match request.questions with
  | [q] => q.type
  | _ => 0

/-- The body of the receiver loop for one parsed request. -/
def runRequest (ipv6 : Bool) (st : Receiver) (endpoint : Endpoint) (request : dns_message_t) :
    Receiver :=
  let type := questionType request
  if refusedType ipv6 type then
    { st with sent := st.sent ++ sendError request DNS_RCODE_REFUSED endpoint }
  else
    { st with pending_ := push st.pending_ { endpoint := endpoint, request := request } }

/-- Source `Processor::run` over the datagrams received and parsed, in order. -/
def run (ipv6 : Bool) (received : List (Endpoint × dns_message_t)) (st : Receiver) : Receiver :=
  received.foldl (fun st r => runRequest ipv6 st r.1 r.2) st

/-! ## `Processor::loadRules` -/

/-- What `std::ifstream rules(name)` and the loop `while (!rules.eof())` with
`std::getline` meet under a file name: a file that cannot be opened
(`!rules.good()`); a file that is read to its end, given by the lines that
`getline` yields; or a file that opens but on which, after the lines given, a
read fails without reaching end of file (a directory, a read error), so that
`rules.eof()` never becomes true. -/
inductive RuleFile where
  | missing : RuleFile
  | text (lines : List String) : RuleFile
  | unreadable (lines : List String) : RuleFile
deriving DecidableEq, Repr

/-- The rule files by name. -/
abbrev Files := String → RuleFile

/-- Comment removal: `line.substr(0, line.find('#'))`. -/
def stripComment (line : String) : String :=
  String.mk (line.toList.takeWhile (fun c => c != '#'))

/-- One round of the `getline` loop: an empty line is skipped, otherwise the
comment is cut and the line goes to `tree.add`; the result code and the
cleaned line only feed the log and the counter. -/
def loadLine {T : Type} (tree : TreeOps T) (t : T) (line : String) : T :=
  if line.isEmpty then t
  else (tree.add t (stripComment line)).2.2

/-- The `getline` loop over one opened file. -/
def loadFile {T : Type} (tree : TreeOps T) (lines : List String) (t : T) : T :=
  lines.foldl (loadLine tree) t

/-- The loop over the file names. The value `none` stands for a call that does
not return: on a file that opens but cannot be read to its end the loop
`while (!rules.eof())` never ends. The first file that cannot be opened makes
`loadRules` return false on the spot. -/
def loadFiles {T : Type} (tree : TreeOps T) (files : Files) :
    List String → T → Option (Bool × T)
  | [], t => some (true, t)
  | name :: rest, t =>
    match files name with
    | RuleFile.missing => some (false, t)
    | RuleFile.text lines => loadFiles tree files rest (loadFile tree lines t)
    | RuleFile.unreadable _ => none

/-- Source `Processor::loadRules`: false for an empty list of names; otherwise the
tree is cleared and the files are loaded into it in order. The value `none`
stands for a call that does not return. -/
def loadRules {T : Type} (tree : TreeOps T) (files : Files) (fileNames : List String) (t : T) :
    Option (Bool × T) :=
  if fileNames.isEmpty then some (false, t)
  else loadFiles tree files fileNames (tree.clear t)

/-! ## A concrete name tree for examples -/

/-- Modelled from the spec: result code `DNSBERR_OK` of `Tree::add`. -/
def DNSBERR_OK : Int := 0

/-- Modelled from the spec: result code of `Tree::add` for a rule that is
already present (`Duplicated`). -/
def DNSBERR_DUPLICATED_RULE : Int := 1

/-- Modelled from the spec: result code of `Tree::add` for a name that fails
the syntactic check (`Invalid`). -/
def DNSBERR_INVALID_RULE : Int := 2

/-- The text after the last-but-`n` periods: all label-aligned suffixes of a
name, the name itself first. -/
def labelSuffixes : List Char → List (List Char)
  | [] => [[]]
  | c :: cs => (c :: cs) :: (if c == '.' then labelSuffixes cs else (labelSuffixes cs).drop 1)

/-- Modelled from the spec: the name tree of the engine (`Tree<uint8_t>`, whose
header is not part of the sources at hand) as the list of stored suffixes.
`add` answers Invalid for an empty name, Duplicated for a stored one and
inserts otherwise; `match` is true iff a stored suffix is a label-aligned
suffix of the name; `clear` removes all entries. -/
def listTree : TreeOps (List String) where
  clear := fun _ => []
  add := fun t line =>
    if line.isEmpty then (DNSBERR_INVALID_RULE, line, t)
    else if t.contains line then (DNSBERR_DUPLICATED_RULE, line, t)
    else (DNSBERR_OK, line, t ++ [line])
  match_ := fun t name =>
    t.any (fun s => !s.isEmpty && (labelSuffixes name.toList).contains s.toList)

/-- The tree after the files `names`, all of which are read to their end, are
loaded in order. -/
def loadedFrom {T : Type} (tree : TreeOps T) (files : Files) (names : List String) (t : T) : T :=
  names.foldl
    (fun acc n =>
      match files n with
      | RuleFile.text lines => loadFile tree lines acc
      | _ => acc)
    t

/-- Sample rule files: `a.rules` holds one rule and one comment line,
`dir.rules` opens but cannot be read (a directory), and nothing else can be
opened. -/
def sampleFiles : Files := fun n =>
  if n = "a.rules" then RuleFile.text ["tracker.net", "# note"]
  else if n = "dir.rules" then RuleFile.unreadable []
  else RuleFile.missing


/-! ## Examples used by the concrete statements -/

/-- A cache that answers every query from the upstream with 93.184.216.34. -/
def sampleResolve : String → Nat → Resolved :=
  fun _ _ => { result := DNSB_STATUS_RECURSIVE, address := { type := 1, ipv4 := 0x5DB8D822 } }

/-- An engine with filtering and heuristics on, `cdn.example` and `ads.example`
on the blacklist and `ok.cdn.example` on the whitelist. -/
def sampleProcessor : Processor (List String) :=
  { useHeuristics_ := true, useFiltering_ := true,
    blacklist_ := ["cdn.example", "ads.example"], whitelist_ := ["ok.cdn.example"] }

/-- A request with one question and the given id, flags, name, type and class. -/
def query (id flags : Nat) (qname : String) (type clazz : Nat) : dns_message_t :=
  { header := { id := id, flags := flags },
    questions := [{ qname := qname, type := type, clazz := clazz }] }

end dnsblocker

/-! ## The wire codec of `dns.cc`

`dns.cc` is written against the header with a single `fields` word, and reads
and writes through `BufferIO`, whose source is not at hand: the buffer below
follows the specification of the wire codec (big-endian integers, names as
length-prefixed labels closed by a zero byte, compression pointers accepted
on decode with at most eight hops, a fixed capacity). -/

namespace dns

open dnsblocker

/-- Header of `dns.cc`: the constructor zeroes every field. -/
structure dns_header_t where
  id : Nat := 0
  fields : Nat := 0
  qdcount : Nat := 0
  ancount : Nat := 0
  nscount : Nat := 0
  arcount : Nat := 0
deriving DecidableEq, Repr

/-- Message of `dns.cc`: header, questions, answers. -/
structure dns_message_t where
  header : dns_header_t := {}
  questions : List dns_question_t := []
  answers : List dns_record_t := []
deriving DecidableEq, Repr

/-- Modelled from the spec: the codec's bound on compression pointer hops. -/
def MAX_POINTER_HOPS : Nat := 8

/-- Modelled from the spec: the byte buffer with a cursor and a fixed capacity
that `dns.cc` reads from and writes to (class `BufferIO`, not part of the
sources at hand). -/
structure BufferIO where
  data : List Nat := []
  cursor : Nat := 0
  capacity : Nat := 0
deriving DecidableEq, Repr

/-- The labels of a dotted name: the texts between the periods. -/
def splitDots : List Char → List (List Char)
  | [] => [[]]
  | c :: cs =>
    if c = '.' then [] :: splitDots cs
    else
      match splitDots cs with
      | [] => [[c]]
      | l :: ls => (c :: l) :: ls

/-- The dotted name of a list of labels. -/
def joinDots : List (List Char) → List Char
  | [] => []
  | [l] => l
  | l :: l' :: ls => l ++ '.' :: joinDots (l' :: ls)

/-- Big-endian bytes of a 16-bit value. -/
def u16Bytes (v : Nat) : List Nat := [v / 256 % 256, v % 256]

/-- Big-endian bytes of a 32-bit value. -/
def u32Bytes (v : Nat) : List Nat :=
  [v / 16777216 % 256, v / 65536 % 256, v / 256 % 256, v % 256]

/-- Wire form of one label: the length byte, then the octets. -/
def labelBytes (l : List Char) : List Nat := l.length :: l.map Char.toNat

/-- Wire form of a list of labels, closed by the zero length byte. -/
def labelsBytes : List (List Char) → List Nat
  | [] => [0]
  | l :: ls => labelBytes l ++ labelsBytes ls

/-- Modelled from the spec: the wire form of a name, each label length-prefixed
and a zero length byte at the end; no compression pointer is emitted. -/
def qnameBytes (name : String) : List Nat := labelsBytes (splitDots name.toList)

/-- Modelled from the spec: a write stores the bytes after what was written and
advances the cursor; it fails (`BufferFull`) when the capacity would be
exceeded. -/
def BufferIO.write (bio : BufferIO) (bytes : List Nat) : Option BufferIO :=
  if bio.cursor + bytes.length ≤ bio.capacity then
    some { bio with data := bio.data ++ bytes, cursor := bio.cursor + bytes.length }
  else none

/-- Modelled from the spec: `BufferIO::writeU16`, big-endian. -/
def BufferIO.writeU16 (bio : BufferIO) (v : Nat) : Option BufferIO := bio.write (u16Bytes v)

/-- Modelled from the spec: `BufferIO::writeU32`, big-endian. -/
def BufferIO.writeU32 (bio : BufferIO) (v : Nat) : Option BufferIO := bio.write (u32Bytes v)

/-- Modelled from the spec: `BufferIO::writeQName`. -/
def BufferIO.writeQName (bio : BufferIO) (name : String) : Option BufferIO :=
  bio.write (qnameBytes name)

/-- Modelled from the spec: one byte at the cursor; fails on truncation. -/
def BufferIO.readU8 (bio : BufferIO) : Option (Nat × BufferIO) :=
  match bio.data[bio.cursor]? with
  | none => none
  | some b => some (b, { bio with cursor := bio.cursor + 1 })

/-- Modelled from the spec: `BufferIO::readU16`, big-endian. -/
def BufferIO.readU16 (bio : BufferIO) : Option (Nat × BufferIO) :=
  match bio.readU8 with
  | none => none
  | some (hi, bio) =>
    match bio.readU8 with
    | none => none
    | some (lo, bio) => some (hi * 256 + lo, bio)

/-- Modelled from the spec: the labels of the name that starts at `pos`, and
the position behind it. A zero byte ends the name; a byte with the two highest
bits set is a pointer, followed for at most `MAX_POINTER_HOPS` hops, and the
name then ends behind the first pointer; a length above 63, a total encoded
length above 255, and a read beyond the data are malformed. `total` counts the
encoded octets so far. -/
def readLabels (data : List Nat) : Nat → Nat → Nat → Nat → Option (List (List Char) × Nat)
  | 0, _, _, _ => none
  | fuel + 1, pos, hops, total =>
    match data[pos]? with
    | none => none
    | some b =>
      if b = 0 then some ([], pos + 1)
      else if 192 ≤ b then
        match data[pos + 1]? with
        | none => none
        | some b2 =>
          if MAX_POINTER_HOPS ≤ hops then none
          else
            match readLabels data fuel ((b - 192) * 256 + b2) (hops + 1) total with
            | none => none
            | some (labels, _) => some (labels, pos + 2)
      else if 63 < b then none
      else
        let label := (data.drop (pos + 1)).take b
        if label.length < b then none
        else if 255 < total + (b + 1) + 1 then none
        else
          match readLabels data fuel (pos + 1 + b) hops (total + (b + 1)) with
          | none => none
          | some (labels, e) => some (label.map Char.ofNat :: labels, e)

/-- Modelled from the spec: `BufferIO::readQName`. No name takes more than 127
labels and 8 pointers, so 256 rounds are enough. -/
def BufferIO.readQName (bio : BufferIO) : Option (String × BufferIO) :=
  match readLabels bio.data 256 bio.cursor 0 0 with
  | none => none
  | some (labels, e) => some (String.mk (joinDots labels), { bio with cursor := e })

/-- Source `decodeHeader`: six 16-bit reads. -/
def decodeHeader (bio : BufferIO) : Option (dns_header_t × BufferIO) := do
  let (id, bio) ← bio.readU16
  let (fields, bio) ← bio.readU16
  let (qdcount, bio) ← bio.readU16
  let (ancount, bio) ← bio.readU16
  let (nscount, bio) ← bio.readU16
  let (arcount, bio) ← bio.readU16
  pure ({ id := id, fields := fields, qdcount := qdcount, ancount := ancount,
          nscount := nscount, arcount := arcount }, bio)

/-- Source `decodeQuestions`: `count` questions are read in order. -/
def decodeQuestions (bio : BufferIO) : Nat → Option (List dns_question_t × BufferIO)
  | 0 => some ([], bio)
  | count + 1 => do
    let (qname, bio) ← bio.readQName
    let (type, bio) ← bio.readU16
    let (clazz, bio) ← bio.readU16
    let (rest, bio) ← decodeQuestions bio count
    pure ({ qname := qname, type := type, clazz := clazz } :: rest, bio)

/-- Source `dns_decode`: questions and answers of `message` are cleared, then the
header and `header.qdcount` questions are read. No record is read. -/
def dns_decode (bio : BufferIO) (message : dns_message_t) : Option (dns_message_t × BufferIO) := do
  let message := { message with questions := [] }
  let message := { message with answers := [] }
  let (header, bio) ← decodeHeader bio
  let (questions, bio) ← decodeQuestions bio header.qdcount
  pure ({ message with header := header, questions := questions }, bio)

/-- Source `encodeHeader`: six 16-bit writes. -/
def encodeHeader (bio : BufferIO) (header : dns_header_t) : Option BufferIO := do
  let bio ← bio.writeU16 header.id
  let bio ← bio.writeU16 header.fields
  let bio ← bio.writeU16 header.qdcount
  let bio ← bio.writeU16 header.ancount
  let bio ← bio.writeU16 header.nscount
  bio.writeU16 header.arcount

/-- Source `encodeQuestions`: name, type and class of each question. -/
def encodeQuestions (bio : BufferIO) : List dns_question_t → Option BufferIO
  | [] => some bio
  | q :: rest => do
    let bio ← bio.writeQName q.qname
    let bio ← bio.writeU16 q.type
    let bio ← bio.writeU16 q.clazz
    encodeQuestions bio rest

/-- Source `encodeRecords`: name, type, class and ttl of the record, then the fixed
data length 4 and the fixed data `0x7F0000FE`. -/
def encodeRecords (bio : BufferIO) : List dns_record_t → Option BufferIO
  | [] => some bio
  | r :: rest => do
    let bio ← bio.writeQName r.qname
    let bio ← bio.writeU16 r.type
    let bio ← bio.writeU16 r.clazz
    let bio ← bio.writeU32 r.ttl
    let bio ← bio.writeU16 4
    let bio ← bio.writeU32 0x7F0000FE
    encodeRecords bio rest

/-- The header after the first four statements of `dns_encode`: the counts are
set from the vectors (narrowed to `uint16_t`) and to zero. -/
def countedHeader (message : dns_message_t) : dns_header_t :=
  { id := message.header.id, fields := message.header.fields,
    qdcount := message.questions.length % 65536,
    ancount := message.answers.length % 65536,
    nscount := 0, arcount := 0 }

/-- Source `dns_encode`: the counts of the header are set, then header, questions and
records are written. The value is the message as it is left and the buffer. -/
def dns_encode (bio : BufferIO) (message : dns_message_t) : Option (dns_message_t × BufferIO) := do
  let message := { message with header := countedHeader message }
  let bio ← encodeHeader bio message.header
  let bio ← encodeQuestions bio message.questions
  let bio ← encodeRecords bio message.answers
  pure (message, bio)

/-- The bytes `encodeHeader` writes. -/
def headerBytes (header : dns_header_t) : List Nat :=
  u16Bytes header.id ++ u16Bytes header.fields ++ u16Bytes header.qdcount ++
    u16Bytes header.ancount ++ u16Bytes header.nscount ++ u16Bytes header.arcount

/-- The bytes `encodeQuestions` writes. -/
def questionsBytes : List dns_question_t → List Nat
  | [] => []
  | q :: rest => qnameBytes q.qname ++ u16Bytes q.type ++ u16Bytes q.clazz ++ questionsBytes rest

/-- The bytes `encodeRecords` writes. -/
def recordsBytes : List dns_record_t → List Nat
  | [] => []
  | r :: rest =>
    qnameBytes r.qname ++ u16Bytes r.type ++ u16Bytes r.clazz ++ u32Bytes r.ttl ++
      u16Bytes 4 ++ u32Bytes 0x7F0000FE ++ recordsBytes rest

/-- The bytes `dns_encode` writes for a message. -/
def messageBytes (message : dns_message_t) : List Nat :=
  headerBytes (countedHeader message) ++ questionsBytes message.questions ++
    recordsBytes message.answers

/-- The buffer the receiving side decodes: the bytes written, cursor at zero. -/
def BufferIO.rewind (bio : BufferIO) : BufferIO := { bio with cursor := 0 }

/-- A name the data model allows on the wire: every label has 1 to 63 octets,
each character is one octet, and the encoded length is at most 255. -/
def validName (name : String) : Bool :=
  let labels := splitDots name.toList
  labels.all (fun l => decide (1 ≤ l.length) && decide (l.length ≤ 63) &&
    l.all (fun c => decide (c.toNat < 256))) &&
  decide ((labels.map (fun l => l.length + 1)).sum + 1 ≤ 255)

/-- A sample response: one question and one A answer for `ads.example`. -/
def sampleMessage : dns_message_t :=
  { header := { id := 0x1234, fields := 0x8180, qdcount := 1, ancount := 1 },
    questions := [{ qname := "ads.example", type := 1, clazz := 1 }],
    answers := [{ qname := "ads.example", type := 1, clazz := 1, ttl := 300,
                  rdata := { type := 1, ipv4 := 0x7F000001 } }] }

end dns

/-! ## The event list of `monitor.cc`

The mutex and the condition variable of `Monitor` are left out: `push` and
`pop` are followed on the list alone, front of the `std::list` first. -/

/-- Event of the monitor: four 32-bit values and two strings. -/
structure Event where
  time : Nat := 0
  source : Nat := 0
  resolver : Nat := 0
  address : Nat := 0
  status : String := ""
  host : String := ""
deriving DecidableEq, Repr

/-- The monitor, as far as `push` and `pop` go: the list `events_`. -/
structure Monitor where
  events_ : List Event := []
deriving DecidableEq, Repr

/-- Constant `Monitor::MAX_ENTRIES` of `monitor.hh`. -/
def Monitor.MAX_ENTRIES : Nat := 1000

/-- Source `Monitor::push`: a list longer than `MAX_ENTRIES` is resized to
`MAX_ENTRIES - 1` (`std::list::resize` with a smaller size erases from the
back), then the event goes to the back. -/
def Monitor.push (m : Monitor) (event : Event) : Monitor :=
  let events_ :=
    if Monitor.MAX_ENTRIES < m.events_.length then
      m.events_.take (Monitor.MAX_ENTRIES - 1)
    else m.events_
  { events_ := events_ ++ [event] }

/-- Source `Monitor::pop`: the event at the front is taken off, if there is
one. -/
def Monitor.pop (m : Monitor) : Option Event × Monitor :=
  match m.events_ with
  | [] => (none, m)
  | event :: rest => (some event, { events_ := rest })

/-- An event whose `time` is `i`. -/
def sampleEvent (i : Nat) : Event := { time := i, status := "DE", host := "ads.example" }

/-- A monitor holding the events of times `0` to `n - 1`, oldest first. -/
def sampleMonitor (n : Nat) : Monitor := { events_ := (List.range n).map sampleEvent }

/-! ## Properties of the request engine -/

namespace dnsblocker

/-! ## Shared facts about `sendError` and the worker -/

/-- The error response written out field by field. -/
theorem sendError_cons (request : dns_message_t) (rcode : Nat) (endpoint : Endpoint)
    (q : dns_question_t) (rest : List dns_question_t) (hq : request.questions = q :: rest) :
    sendError request rcode endpoint =
      [(endpoint, { header := { id := request.header.id, flags := DNS_FLAG_QR, rcode := rcode % 256 },
                    questions := [q], answers := [] })] := by
  unfold sendError
  rw [hq]
  simp only [List.nil_append, Nat.zero_or]

theorem sendError_nil (request : dns_message_t) (rcode : Nat) (endpoint : Endpoint)
    (hq : request.questions = []) : sendError request rcode endpoint = [] := by
  unfold sendError
  rw [hq]

theorem answerFlags_eq (requestFlags : Nat) :
    answerFlags requestFlags =
      if flagSet requestFlags DNS_FLAG_RD then DNS_FLAG_QR ||| DNS_FLAG_RA ||| DNS_FLAG_RD
      else DNS_FLAG_QR := by
  unfold answerFlags
  simp only [Nat.zero_or]

/-- The answer response written out field by field. -/
theorem answerResponse_eq (request : dns_message_t) (q : dns_question_t) (address : Address) :
    answerResponse request q address =
      { header := { id := request.header.id, flags := answerFlags request.header.flags,
                    rcode := 0 },
        questions := [q],
        answers := [{ qname := q.qname, type := q.type, clazz := q.clazz, ttl := DNS_ANSWER_TTL,
                      rdata := address }] } := rfl

/-- Whatever the job, the worker sends exactly one datagram to the job's
endpoint when the request has a question: an error response or the answer
response. -/
theorem process_sent {T : Type} (tree : TreeOps T) (resolve : String → Nat → Resolved)
    (object : Processor T) (job : Job) (q : dns_question_t) (rest : List dns_question_t)
    (hq : job.request.questions = q :: rest) :
    ∃ w, process tree resolve object job = some w ∧
      w.isBlocked = blockedVerdict tree object q.qname ∧
      w.isHeuristic = heuristicVerdict tree object q.qname ∧
      w.resolved = (lookup resolve job.request q w.isBlocked).resolved ∧
      w.address = (lookup resolve job.request q w.isBlocked).address ∧
      w.result = (lookup resolve job.request q w.isBlocked).result ∧
      (w.sent = sendError job.request DNS_RCODE_NXDOMAIN job.endpoint ∧
          w.isBlocked = false ∧ w.result = DNSB_STATUS_NXDOMAIN ∨
        w.sent = sendError job.request DNS_RCODE_SERVFAIL job.endpoint ∧
          w.isBlocked = false ∧ w.result ≠ DNSB_STATUS_NXDOMAIN ∧
          w.result ≠ DNSB_STATUS_CACHE ∧ w.result ≠ DNSB_STATUS_RECURSIVE ∨
        w.sent = [(job.endpoint, answerResponse job.request q w.address)] ∧
          (w.isBlocked = true ∨ w.result = DNSB_STATUS_CACHE ∨
            w.result = DNSB_STATUS_RECURSIVE)) := by
  refine ⟨_, by simp only [process, hq]; rfl, rfl, rfl, rfl, rfl, rfl, ?_⟩
  simp only []
  cases hb : blockedVerdict tree object q.qname
  · by_cases hc : (lookup resolve job.request q false).result = DNSB_STATUS_CACHE
    · simp [hc]
    · by_cases hr : (lookup resolve job.request q false).result = DNSB_STATUS_RECURSIVE
      · simp [hr]
      · by_cases hn : (lookup resolve job.request q false).result = DNSB_STATUS_NXDOMAIN
        · simp [hn, DNSB_STATUS_NXDOMAIN, DNSB_STATUS_CACHE, DNSB_STATUS_RECURSIVE]
        · simp [hn, hc, hr]
  · simp

/-! ## The whitelist wins (C1) -/

theorem blockedVerdict_whitelisted {T : Type} (tree : TreeOps T) (object : Processor T)
    (qname : String) (hw : tree.match_ object.whitelist_ qname = true) :
    blockedVerdict tree object qname = false := by
  unfold blockedVerdict
  cases object.useFiltering_ <;> simp [hw]

theorem heuristicVerdict_whitelisted {T : Type} (tree : TreeOps T) (object : Processor T)
    (qname : String) (hw : tree.match_ object.whitelist_ qname = true) :
    heuristicVerdict tree object qname = false := by
  unfold heuristicVerdict
  cases object.useFiltering_ <;> simp [hw]

theorem lookup_not_blocked_address (resolve : String → Nat → Resolved) (request : dns_message_t)
    (q : dns_question_t) :
    (lookup resolve request q false).address = {} ∨
      (lookup resolve request q false).address = (resolve q.qname q.type).address := by
  unfold lookup
  cases q.qname.toList.contains '.'
  · left; rfl
  · cases flagSet request.header.flags DNS_FLAG_RD
    · left; rfl
    · right; rfl

/-- C1: for a job whose question name the whitelist tree matches, the worker
returns with `isBlocked = false` (and `isHeuristic = false`), whatever the
blacklist holds, whatever `isRandomDomain` says about the name and whatever the
two mode flags are; `blockAddress` is not used: the address of the iteration is
the untouched default or the one the cache resolved, and exactly one datagram
is sent, an error response or the answer built from that address. -/
theorem process_whitelist_wins {T : Type} (tree : TreeOps T)
    (resolve : String → Nat → Resolved) (object : Processor T) (job : Job)
    (q : dns_question_t) (rest : List dns_question_t)
    (hq : job.request.questions = q :: rest)
    (hw : tree.match_ object.whitelist_ q.qname = true) :
    ∃ w, process tree resolve object job = some w ∧
      w.isBlocked = false ∧ w.isHeuristic = false ∧
      (w.address = {} ∨ w.address = (resolve q.qname q.type).address) ∧
      (w.sent = sendError job.request DNS_RCODE_NXDOMAIN job.endpoint ∨
        w.sent = sendError job.request DNS_RCODE_SERVFAIL job.endpoint ∨
        w.sent = [(job.endpoint, answerResponse job.request q w.address)]) := by
  obtain ⟨w, hw1, hb, hh, _, ha, _, hs⟩ := process_sent tree resolve object job q rest hq
  have hb' : w.isBlocked = false := by rw [hb]; exact blockedVerdict_whitelisted tree object _ hw
  refine ⟨w, hw1, hb', ?_, ?_, ?_⟩
  · rw [hh]; exact heuristicVerdict_whitelisted tree object _ hw
  · rw [ha, hb']; exact lookup_not_blocked_address resolve job.request q
  · rcases hs with h | h | h
    · exact Or.inl h.1
    · exact Or.inr (Or.inl h.1)
    · exact Or.inr (Or.inr h.1)

/-- C1 at an instance: `ok.cdn.example` is whitelisted, lies under the
blacklisted `cdn.example`, and filtering and heuristics are on. -/
theorem process_whitelist_wins_witness :
    listTree.match_ sampleProcessor.blacklist_ "ok.cdn.example" = true ∧
    ∃ w, process listTree sampleResolve sampleProcessor
        ⟨{}, query 7 DNS_FLAG_RD "ok.cdn.example" 1 1⟩ = some w ∧
      w.isBlocked = false ∧ w.isHeuristic = false ∧
      (w.address = {} ∨ w.address = (sampleResolve "ok.cdn.example" 1).address) ∧
      (w.sent = sendError (query 7 DNS_FLAG_RD "ok.cdn.example" 1 1) DNS_RCODE_NXDOMAIN {} ∨
        w.sent = sendError (query 7 DNS_FLAG_RD "ok.cdn.example" 1 1) DNS_RCODE_SERVFAIL {} ∨
        w.sent = [(({} : Endpoint), answerResponse (query 7 DNS_FLAG_RD "ok.cdn.example" 1 1)
          { qname := "ok.cdn.example", type := 1, clazz := 1 } w.address)]) :=
  ⟨by decide,
   process_whitelist_wins listTree sampleResolve sampleProcessor
    ⟨{}, query 7 DNS_FLAG_RD "ok.cdn.example" 1 1⟩
    { qname := "ok.cdn.example", type := 1, clazz := 1 } [] rfl (by decide)⟩

/-! ## Responses echo the id and the question (C2) -/

theorem sendError_echo (request : dns_message_t) (rcode : Nat) (endpoint : Endpoint)
    (d : Datagram) (hd : d ∈ sendError request rcode endpoint) :
    d.1 = endpoint ∧ d.2.header.id = request.header.id ∧ d.2.header.rcode = rcode % 256 ∧
      d.2.header.flags = DNS_FLAG_QR ∧ d.2.answers = [] ∧
      ∃ q rest, request.questions = q :: rest ∧ d.2.questions = [q] := by
  cases hq : request.questions with
  | nil => rw [sendError_nil request rcode endpoint hq] at hd; cases hd
  | cons q rest =>
    rw [sendError_cons request rcode endpoint q rest hq, List.mem_singleton] at hd
    subst hd
    exact ⟨rfl, rfl, rfl, rfl, rfl, q, rest, rfl, rfl⟩

theorem runRequest_sent (ipv6 : Bool) (st : Receiver) (endpoint : Endpoint)
    (request : dns_message_t) :
    (runRequest ipv6 st endpoint request).sent = st.sent ∨
      (runRequest ipv6 st endpoint request).sent =
        st.sent ++ sendError request DNS_RCODE_REFUSED endpoint := by
  by_cases h : refusedType ipv6 (questionType request) = true
  · right; simp [runRequest, h]
  · left; simp [runRequest, h]

/-- C2: every response the engine emits carries the request's id and exactly
one question, the request's first question as it came (the name is copied, its
letter case untouched). For the worker: a job with a question makes the worker
return and send exactly one datagram, to the job's endpoint, with that id and
that question. For `sendError` (NXDOMAIN and SERVFAIL from the worker, REFUSED
from the receiver) and for what one round of the receiver adds to the socket:
each datagram has that id and that question. -/
theorem responses_echo_id_and_question {T : Type} (tree : TreeOps T)
    (resolve : String → Nat → Resolved) (object : Processor T) (job : Job)
    (q : dns_question_t) (rest : List dns_question_t)
    (hq : job.request.questions = q :: rest)
    (ipv6 : Bool) (st : Receiver) (endpoint : Endpoint) (request : dns_message_t) (rcode : Nat) :
    (∃ w d, process tree resolve object job = some w ∧ w.sent = [d] ∧ d.1 = job.endpoint ∧
        d.2.header.id = job.request.header.id ∧ d.2.questions = [q]) ∧
    (∀ d ∈ sendError request rcode endpoint,
        d.2.header.id = request.header.id ∧
        ∃ q' rest', request.questions = q' :: rest' ∧ d.2.questions = [q']) ∧
    (∃ new, (runRequest ipv6 st endpoint request).sent = st.sent ++ new ∧
      ∀ d ∈ new, d.2.header.id = request.header.id ∧
        ∃ q' rest', request.questions = q' :: rest' ∧ d.2.questions = [q']) := by
  refine ⟨?_, ?_, ?_⟩
  · obtain ⟨w, hw1, _, _, _, _, _, hs⟩ := process_sent tree resolve object job q rest hq
    rcases hs with h | h | h
    · exact ⟨w, _, hw1, h.1.trans (sendError_cons _ _ _ q rest hq), rfl, rfl, rfl⟩
    · exact ⟨w, _, hw1, h.1.trans (sendError_cons _ _ _ q rest hq), rfl, rfl, rfl⟩
    · exact ⟨w, _, hw1, h.1, rfl, rfl, rfl⟩
  · intro d hd
    obtain ⟨_, hid, _, _, _, hqs⟩ := sendError_echo request rcode endpoint d hd
    exact ⟨hid, hqs⟩
  · rcases runRequest_sent ipv6 st endpoint request with h | h
    · exact ⟨[], by rw [h, List.append_nil], by intro d hd; cases hd⟩
    · refine ⟨_, h, ?_⟩
      intro d hd
      obtain ⟨_, hid, _, _, _, hqs⟩ := sendError_echo request _ endpoint d hd
      exact ⟨hid, hqs⟩

/-- C2 at an instance: a query with a mixed-case name, id 0x1234. -/
theorem responses_echo_id_and_question_witness :
    (∃ w d, process listTree sampleResolve sampleProcessor
        ⟨{}, query 0x1234 DNS_FLAG_RD "Ads.Example" 1 1⟩ = some w ∧ w.sent = [d] ∧
        d.1 = ({} : Endpoint) ∧ d.2.header.id = 0x1234 ∧
        d.2.questions = [{ qname := "Ads.Example", type := 1, clazz := 1 }]) ∧
    (∀ d ∈ sendError (query 9 0 "mail.example" 15 1) DNS_RCODE_REFUSED {},
        d.2.header.id = 9 ∧
        ∃ q' rest', (query 9 0 "mail.example" 15 1).questions = q' :: rest' ∧
          d.2.questions = [q']) ∧
    (∃ new, (runRequest false {} {} (query 9 0 "mail.example" 15 1)).sent = [] ++ new ∧
      ∀ d ∈ new, d.2.header.id = 9 ∧
        ∃ q' rest', (query 9 0 "mail.example" 15 1).questions = q' :: rest' ∧
          d.2.questions = [q']) :=
  responses_echo_id_and_question listTree sampleResolve sampleProcessor
    ⟨{}, query 0x1234 DNS_FLAG_RD "Ads.Example" 1 1⟩
    { qname := "Ads.Example", type := 1, clazz := 1 } [] rfl
    false {} {} (query 9 0 "mail.example" 15 1) DNS_RCODE_REFUSED

/-! ## The flags of the responses (C3) -/

/-- The answer response has QR set, and RA set exactly when the request had RD. -/
theorem answerResponse_QR_RA (request : dns_message_t) (q : dns_question_t)
    (address : Address) :
    flagSet (answerResponse request q address).header.flags DNS_FLAG_QR = true ∧
      flagSet (answerResponse request q address).header.flags DNS_FLAG_RA =
        flagSet request.header.flags DNS_FLAG_RD := by
  rw [answerResponse_eq]
  show flagSet (answerFlags request.header.flags) DNS_FLAG_QR = true ∧
    flagSet (answerFlags request.header.flags) DNS_FLAG_RA =
      flagSet request.header.flags DNS_FLAG_RD
  rw [answerFlags_eq]
  cases flagSet request.header.flags DNS_FLAG_RD
  · exact ⟨by decide, by decide⟩
  · exact ⟨by decide, by decide⟩

/-- An error response has QR set and RA clear, whatever the request's flags. -/
theorem sendError_QR_only (request : dns_message_t) (rcode : Nat) (endpoint : Endpoint)
    (d : Datagram) (hd : d ∈ sendError request rcode endpoint) :
    flagSet d.2.header.flags DNS_FLAG_QR = true ∧
      flagSet d.2.header.flags DNS_FLAG_RA = false := by
  obtain ⟨_, _, _, hf, _, _⟩ := sendError_echo request rcode endpoint d hd
  rw [hf]
  exact ⟨by decide, by decide⟩

/-- C3, the code at a failing input: the query `localhost` with RD set and id 7
is answered by the worker through `sendError` with NXDOMAIN and the flags word
`DNS_FLAG_QR` alone, so RA is clear although RD was set; the receiver's REFUSED
for an MX query with RD set has the same flags. -/
theorem sendError_leaves_RA_clear :
    flagSet (query 7 DNS_FLAG_RD "localhost" 1 1).header.flags DNS_FLAG_RD = true ∧
    (process listTree sampleResolve sampleProcessor
        ⟨{}, query 7 DNS_FLAG_RD "localhost" 1 1⟩).map (fun w => w.sent) =
      some [({}, { header := { id := 7, flags := DNS_FLAG_QR, rcode := DNS_RCODE_NXDOMAIN },
                   questions := [{ qname := "localhost", type := 1, clazz := 1 }],
                   answers := [] })] ∧
    (runRequest false {} {} (query 8 DNS_FLAG_RD "mail.example" 15 1)).sent =
      [({}, { header := { id := 8, flags := DNS_FLAG_QR, rcode := DNS_RCODE_REFUSED },
              questions := [{ qname := "mail.example", type := 15, clazz := 1 }],
              answers := [] })] ∧
    flagSet DNS_FLAG_QR DNS_FLAG_RA = false := by
  refine ⟨by decide, by decide, by decide, by decide⟩

/-! ## NXDOMAIN without the upstream (C4) -/

theorem lookup_nxdomain (resolve : String → Nat → Resolved) (request : dns_message_t)
    (q : dns_question_t)
    (h : q.qname.toList.contains '.' = false ∨
      flagSet request.header.flags DNS_FLAG_RD = false) :
    lookup resolve request q false = { result := DNSB_STATUS_NXDOMAIN } := by
  unfold lookup
  rcases h with h | h
  · rw [h]; rfl
  · rw [h]
    cases q.qname.toList.contains '.' <;> rfl

/-- C4: for a job that is not blocked and whose question name has no period,
or whose request has RD clear, the worker returns without a call to
`cache_->resolve` (whatever the cache would answer), and sends exactly one
datagram: the error response with RCODE NXDOMAIN, the request's id, the
request's question and no answer record. -/
theorem process_nxdomain_without_upstream {T : Type} (tree : TreeOps T)
    (resolve : String → Nat → Resolved) (object : Processor T) (job : Job)
    (q : dns_question_t) (rest : List dns_question_t)
    (hq : job.request.questions = q :: rest)
    (hb : blockedVerdict tree object q.qname = false)
    (h : q.qname.toList.contains '.' = false ∨
      flagSet job.request.header.flags DNS_FLAG_RD = false) :
    ∃ w, process tree resolve object job = some w ∧ w.isBlocked = false ∧
      w.resolved = [] ∧
      w.sent = [(job.endpoint,
        { header := { id := job.request.header.id, flags := DNS_FLAG_QR,
                      rcode := DNS_RCODE_NXDOMAIN },
          questions := [q], answers := [] })] := by
  obtain ⟨w, hw1, hbl, _, hres, _, hresult, hs⟩ := process_sent tree resolve object job q rest hq
  have hb' : w.isBlocked = false := hbl.trans hb
  rw [hb', lookup_nxdomain resolve job.request q h] at hres hresult
  refine ⟨w, hw1, hb', hres, ?_⟩
  rcases hs with hs | hs | hs
  · exact hs.1.trans (sendError_cons _ _ _ q rest hq)
  · exact absurd hresult hs.2.2.1
  · rcases hs.2 with h1 | h1 | h1
    · rw [hb'] at h1; cases h1
    · rw [hresult] at h1; exact absurd h1 (by decide)
    · rw [hresult] at h1; exact absurd h1 (by decide)

/-- C4 at an instance: `localhost` with RD set, neither blocked nor dotted. -/
theorem process_nxdomain_without_upstream_witness :
    ∃ w, process listTree sampleResolve sampleProcessor
        ⟨{}, query 7 DNS_FLAG_RD "localhost" 1 1⟩ = some w ∧ w.isBlocked = false ∧
      w.resolved = [] ∧
      w.sent = [({}, { header := { id := 7, flags := DNS_FLAG_QR, rcode := DNS_RCODE_NXDOMAIN },
                       questions := [{ qname := "localhost", type := 1, clazz := 1 }],
                       answers := [] })] :=
  process_nxdomain_without_upstream listTree sampleResolve sampleProcessor
    ⟨{}, query 7 DNS_FLAG_RD "localhost" 1 1⟩ { qname := "localhost", type := 1, clazz := 1 } []
    rfl (by decide) (Or.inl (by decide))

/-! ## The receiver's admission test (C5) -/

theorem refusedType_false_iff (ipv6 : Bool) (type : Nat) :
    refusedType ipv6 type = false ↔
      (type = DNS_TYPE_A ∨ (ipv6 = true ∧ type = DNS_TYPE_AAAA)) := by
  unfold refusedType
  cases ipv6
  · simp
  · simp only [if_true, decide_eq_false_iff_not, true_and]
    constructor
    · intro h
      by_cases h1 : type = DNS_TYPE_A
      · exact Or.inl h1
      · by_cases h2 : type = DNS_TYPE_AAAA
        · exact Or.inr h2
        · exact absurd ⟨h1, h2⟩ h
    · rintro (h | h) ⟨h1, h2⟩
      · exact h1 h
      · exact h2 h

theorem questionType_accepted_iff (ipv6 : Bool) (request : dns_message_t) :
    refusedType ipv6 (questionType request) = false ↔
      ∃ q, request.questions = [q] ∧
        (q.type = DNS_TYPE_A ∨ (ipv6 = true ∧ q.type = DNS_TYPE_AAAA)) := by
  rw [refusedType_false_iff]
  unfold questionType
  split
  · rename_i q hq
    constructor
    · intro h; exact ⟨q, hq, h⟩
    · rintro ⟨q', hq', h⟩
      rw [hq] at hq'
      cases hq'
      exact h
  · rename_i hne
    constructor
    · rintro (h | h)
      · exact absurd h (by decide)
      · exact absurd h.2 (by decide)
    · rintro ⟨q', hq', _⟩
      exact absurd hq' (hne q')

/-- C5: one round of the receiver on a parsed request. A job is pushed (to
the back of the queue, nothing being sent) if and only if the request has
exactly one question whose type is A, or AAAA when IPv6 is compiled in.
Otherwise the queue is unchanged; with no question nothing is sent, and with
at least one question exactly one datagram is added: the REFUSED response with
the request's id and its first question. -/
theorem runRequest_admission (ipv6 : Bool) (st : Receiver) (endpoint : Endpoint)
    (request : dns_message_t) :
    ((runRequest ipv6 st endpoint request).pending_ ≠ st.pending_ ↔
      ∃ q, request.questions = [q] ∧
        (q.type = DNS_TYPE_A ∨ (ipv6 = true ∧ q.type = DNS_TYPE_AAAA))) ∧
    ((∃ q, request.questions = [q] ∧
        (q.type = DNS_TYPE_A ∨ (ipv6 = true ∧ q.type = DNS_TYPE_AAAA))) →
      (runRequest ipv6 st endpoint request).pending_ =
          st.pending_ ++ [{ endpoint := endpoint, request := request }] ∧
        (runRequest ipv6 st endpoint request).sent = st.sent) ∧
    ((¬ ∃ q, request.questions = [q] ∧
        (q.type = DNS_TYPE_A ∨ (ipv6 = true ∧ q.type = DNS_TYPE_AAAA))) →
      (runRequest ipv6 st endpoint request).pending_ = st.pending_ ∧
        (request.questions = [] → (runRequest ipv6 st endpoint request).sent = st.sent) ∧
        (∀ q rest, request.questions = q :: rest →
          (runRequest ipv6 st endpoint request).sent = st.sent ++
            [(endpoint, { header := { id := request.header.id, flags := DNS_FLAG_QR,
                                      rcode := DNS_RCODE_REFUSED },
                          questions := [q], answers := [] })])) := by
  have key := questionType_accepted_iff ipv6 request
  cases hr : refusedType ipv6 (questionType request)
  · have hp : (runRequest ipv6 st endpoint request).pending_ =
        st.pending_ ++ [{ endpoint := endpoint, request := request }] := by
      simp [runRequest, hr, push]
    have hs : (runRequest ipv6 st endpoint request).sent = st.sent := by
      simp [runRequest, hr]
    have ha := key.mp hr
    refine ⟨⟨fun _ => ha, fun _ => ?_⟩, fun _ => ⟨hp, hs⟩, fun hn => absurd ha hn⟩
    rw [hp]
    intro h
    have := congrArg List.length h
    simp at this
  · have hp : (runRequest ipv6 st endpoint request).pending_ = st.pending_ := by
      simp [runRequest, hr]
    have hs : (runRequest ipv6 st endpoint request).sent =
        st.sent ++ sendError request DNS_RCODE_REFUSED endpoint := by
      simp [runRequest, hr]
    have hn : ¬ ∃ q, request.questions = [q] ∧
        (q.type = DNS_TYPE_A ∨ (ipv6 = true ∧ q.type = DNS_TYPE_AAAA)) := by
      intro ha
      rw [key.mpr ha] at hr
      cases hr
    refine ⟨⟨fun h => absurd hp h, fun ha => absurd ha hn⟩, fun ha => absurd ha hn, fun _ => ?_⟩
    refine ⟨hp, fun h0 => ?_, fun q rest hq => ?_⟩
    · rw [hs, sendError_nil request _ endpoint h0, List.append_nil]
    · rw [hs, sendError_cons request _ endpoint q rest hq]
      rfl

/-! ## The sentinel answer of a blocked job (C6) -/

theorem lookup_blocked (resolve : String → Nat → Resolved) (request : dns_message_t)
    (q : dns_question_t) :
    lookup resolve request q true = { address := blockAddress q.type {} } := rfl

theorem blockAddress_type (type : Nat) (address : Address) :
    (blockAddress type address).type = type := by
  unfold blockAddress
  split <;> rfl

theorem blockAddress_ipv4 (type : Nat) (address : Address) (h : type = DNS_TYPE_A) :
    (blockAddress type address).ipv4 = DNS_BLOCKED_IPV4_ADDRESS := by
  unfold blockAddress
  rw [if_pos h]

theorem blockAddress_ipv6 (type : Nat) (address : Address) (h : type ≠ DNS_TYPE_A) :
    (blockAddress type address).ipv6 = DNS_BLOCKED_IPV6_ADDRESS := by
  unfold blockAddress
  rw [if_neg h]

/-- C6 as stated fails: a blocked query for `ads.example` that asks class 3
(CHAOS) is answered with one record whose class is 3, not IN. -/
theorem blocked_answer_class_not_IN :
    (process listTree sampleResolve sampleProcessor
        ⟨{}, query 7 DNS_FLAG_RD "ads.example" 1 3⟩).map
      (fun w => (w.isBlocked, w.sent.map (fun d => d.2.answers.map (fun a => a.clazz)))) =
      some (true, [[3]]) ∧ (3 : Nat) ≠ 1 := by
  refine ⟨by decide, by decide⟩

/-- C6, amended: for every blocked job the worker returns and sends exactly
one datagram, the answer response, whose answers are exactly one record with
the request's qname as owner, the request's qtype as type, the class of the
request's question (so IN when the request asks IN), `DNS_ANSWER_TTL` as ttl,
and the sentinel address for the qtype: an address tagged with the qtype that
holds `DNS_BLOCKED_IPV4_ADDRESS` when the qtype is A and
`DNS_BLOCKED_IPV6_ADDRESS` otherwise. No call to the cache is made. -/
theorem process_blocked_answer {T : Type} (tree : TreeOps T)
    (resolve : String → Nat → Resolved) (object : Processor T) (job : Job)
    (q : dns_question_t) (rest : List dns_question_t)
    (hq : job.request.questions = q :: rest)
    (hb : blockedVerdict tree object q.qname = true) :
    ∃ w d a, process tree resolve object job = some w ∧ w.isBlocked = true ∧
      w.resolved = [] ∧ w.sent = [d] ∧ d.1 = job.endpoint ∧ d.2.answers = [a] ∧
      a.qname = q.qname ∧ a.type = q.type ∧ a.clazz = q.clazz ∧
      (q.clazz = 1 → a.clazz = 1) ∧ a.ttl = DNS_ANSWER_TTL ∧
      a.rdata = blockAddress q.type {} ∧ a.rdata.type = q.type ∧
      (q.type = DNS_TYPE_A → a.rdata.ipv4 = DNS_BLOCKED_IPV4_ADDRESS) ∧
      (q.type ≠ DNS_TYPE_A → a.rdata.ipv6 = DNS_BLOCKED_IPV6_ADDRESS) := by
  obtain ⟨w, hw1, hbl, _, hres, haddr, _, hs⟩ := process_sent tree resolve object job q rest hq
  have hb' : w.isBlocked = true := hbl.trans hb
  rw [hb', lookup_blocked] at hres haddr
  have hsent : w.sent = [(job.endpoint, answerResponse job.request q (blockAddress q.type {}))] := by
    rcases hs with hs | hs | hs
    · rw [hb'] at hs; exact absurd hs.2.1 (by decide)
    · rw [hb'] at hs; exact absurd hs.2.1 (by decide)
    · rw [hs.1, haddr]
  refine ⟨w, (job.endpoint, answerResponse job.request q (blockAddress q.type {})),
    { qname := q.qname, type := q.type, clazz := q.clazz, ttl := DNS_ANSWER_TTL,
      rdata := blockAddress q.type {} },
    hw1, hb', hres, hsent, rfl, ?_, rfl, rfl, rfl, fun h => h, rfl, rfl,
    blockAddress_type _ _, fun h => blockAddress_ipv4 _ _ h, fun h => blockAddress_ipv6 _ _ h⟩
  rw [answerResponse_eq]

/-- C6 at an instance: the blacklisted `ads.example`, type A, class IN. -/
theorem process_blocked_answer_witness :
    ∃ w d a, process listTree sampleResolve sampleProcessor
        ⟨{}, query 0x1234 DNS_FLAG_RD "ads.example" 1 1⟩ = some w ∧ w.isBlocked = true ∧
      w.resolved = [] ∧ w.sent = [d] ∧ d.1 = ({} : Endpoint) ∧ d.2.answers = [a] ∧
      a.qname = "ads.example" ∧ a.type = 1 ∧ a.clazz = 1 ∧
      ((1 : Nat) = 1 → a.clazz = 1) ∧ a.ttl = DNS_ANSWER_TTL ∧
      a.rdata = blockAddress 1 {} ∧ a.rdata.type = 1 ∧
      (1 = DNS_TYPE_A → a.rdata.ipv4 = DNS_BLOCKED_IPV4_ADDRESS) ∧
      (1 ≠ DNS_TYPE_A → a.rdata.ipv6 = DNS_BLOCKED_IPV6_ADDRESS) :=
  process_blocked_answer listTree sampleResolve sampleProcessor
    ⟨{}, query 0x1234 DNS_FLAG_RD "ads.example" 1 1⟩
    { qname := "ads.example", type := 1, clazz := 1 } [] rfl (by decide)

/-! ## The random-domain heuristic: digit groups (C7) -/

/-- C7, the code at a failing input: `aeiouaeiou12.com` passes the
preprocessing, its first label `aeiouaeiou12` has twelve characters, a single
digit run of length two and ten vowels, so the stated test is false (no run of
five, one run, ratio 10/12), yet `isRandomDomain` returns true: the scan
resets `gs` after every digit, ends with `bgs = 1` and `gon = 2` (the number
of digits) and takes the branch `gon > 1`. On the example of the source's own
comment, `a0bc32de1`, which has three groups, the scan counts four. -/
theorem isRandomDomain_counts_digits_not_runs :
    tooManyLabels (stripWww "aeiouaeiou12.com".toList) = false ∧
    firstLabel (stripWww "aeiouaeiou12.com".toList) = "aeiouaeiou12".toList ∧
    digitRuns "aeiouaeiou12".toList = [2] ∧
    specRandomLabel "aeiouaeiou12".toList = false ∧
    scan "aeiouaeiou12".toList = { gon := 2, gs := 0, bgs := 1, vc := 10, cc := 0 } ∧
    isRandomDomain "aeiouaeiou12.com" = true ∧
    (digitRuns "a0bc32de1".toList).length = 3 ∧
    (scan "a0bc32de1".toList).gon = 4 := by
  refine ⟨by decide, by decide, by decide, by decide, by decide, by decide, by decide,
    by decide⟩

/-! ## The random-domain heuristic: the label guard (C8) -/

theorem hasSubstr_iff_occurs (needle hay : List Char) :
    hasSubstr needle hay = true ↔ needle <:+: hay := by
  induction hay with
  | nil =>
    rw [hasSubstr, List.isPrefixOf_iff_prefix, List.prefix_nil, List.infix_nil]
  | cons c cs ih =>
    rw [hasSubstr, Bool.or_eq_true, List.isPrefixOf_iff_prefix, ih, List.infix_cons_iff]

theorem cstr_leading (s : List Char) : cstr s <+: s :=
  List.takeWhile_prefix _

theorem cstr_of_no_nul (s : List Char) (h : '\x00' ∉ s) : cstr s = s := by
  unfold cstr
  rw [List.takeWhile_eq_self_iff]
  intro c hc
  simp only [bne_iff_ne, ne_eq]
  intro he
  exact h (he ▸ hc)

theorem stripWww_within (name : List Char) : stripWww name <:+: name := by
  unfold stripWww
  split
  · exact (cstr_leading _).isInfix.trans (List.drop_suffix 4 name).isInfix
  · exact List.infix_refl _

theorem isRandomDomain_of_guard_false (name : String)
    (h : tooManyLabels (stripWww name.toList) = false) :
    isRandomDomain name = isRandomLabel (stripWww name.toList) := by
  unfold isRandomDomain
  simp only [h, Bool.false_eq_true, if_false]

theorem first_missing (files : Files) :
    ∀ names : List String, (∃ n ∈ names, files n = RuleFile.missing) →
      ∃ pre name post, names = pre ++ name :: post ∧
        (∀ n ∈ pre, files n ≠ RuleFile.missing) ∧ files name = RuleFile.missing := by
  intro names
  induction names with
  | nil => rintro ⟨n, hn, _⟩; cases hn
  | cons a rest ih =>
    intro hex
    by_cases ha : files a = RuleFile.missing
    · exact ⟨[], a, rest, rfl, fun n hn => (by cases hn), ha⟩
    · have hex' : ∃ n ∈ rest, files n = RuleFile.missing := by
        obtain ⟨n, hn, hm⟩ := hex
        rcases List.mem_cons.mp hn with h | h
        · rw [h] at hm; exact absurd hm ha
        · exact ⟨n, h, hm⟩
      obtain ⟨pre, name, post, hsplit, hpre, hname⟩ := ih hex'
      refine ⟨a :: pre, name, post, by rw [hsplit]; rfl, ?_, hname⟩
      intro n hn
      rcases List.mem_cons.mp hn with h | h
      · rw [h]; exact ha
      · exact hpre n h

theorem loadFiles_before_missing {T : Type} (tree : TreeOps T) (files : Files)
    (name : String) (post : List String) (hname : files name = RuleFile.missing) :
    ∀ (pre : List String) (t : T), (∀ n ∈ pre, ∃ lines, files n = RuleFile.text lines) →
      loadFiles tree files (pre ++ name :: post) t = some (false, loadedFrom tree files pre t) := by
  intro pre
  induction pre with
  | nil =>
    intro t _
    simp only [List.nil_append, loadFiles, hname, loadedFrom, List.foldl_nil]
  | cons a rest ih =>
    intro t hread
    obtain ⟨lines, ha⟩ := hread a (List.mem_cons_self _ _)
    have hrec := ih (loadFile tree lines t) (fun n hn => hread n (List.mem_cons_of_mem _ hn))
    have hstep : loadFiles tree files (a :: (rest ++ name :: post)) t =
        loadFiles tree files (rest ++ name :: post) (loadFile tree lines t) := by
      rw [loadFiles, ha]
    have hfold : loadedFrom tree files (a :: rest) t =
        loadedFrom tree files rest (loadFile tree lines t) := by
      unfold loadedFrom
      rw [List.foldl_cons, ha]
    rw [List.cons_append, hstep, hrec, hfold]

/-- C9 as stated fails. With the single rule `ads.example` in the tree and a
rule file that cannot be opened, `loadRules` returns false and leaves the tree
empty; with a first file that opens and a second that does not, the tree holds
the rules of the first file and the previous entry is gone; and with a first
file that opens but cannot be read (a directory) the call does not return at
all, although the second file cannot be opened. -/
theorem loadRules_failure_loses_tree :
    loadRules listTree sampleFiles ["missing.rules"] ["ads.example"] = some (false, []) ∧
    loadRules listTree sampleFiles ["a.rules", "missing.rules"] ["ads.example"] =
      some (false, ["tracker.net"]) ∧
    ([] : List String) ≠ ["ads.example"] ∧ ["tracker.net"] ≠ ["ads.example"] ∧
    sampleFiles "missing.rules" = RuleFile.missing ∧
    loadRules listTree sampleFiles ["dir.rules", "missing.rules"] ["ads.example"] = none := by
  refine ⟨by decide, by decide, by decide, by decide, by decide, by decide⟩

/-- C9, amended: for every tree state and every non-empty list of rule file
names in which at least one file cannot be opened, take the first such file.
When the files before it are read to their end, `loadRules` returns false, and
the tree is not kept: it has been cleared and then holds exactly what the files
before the first one that cannot be opened loaded into it (it is the cleared
tree when the first file fails). -/
theorem loadRules_open_failure {T : Type} (tree : TreeOps T) (files : Files)
    (fileNames : List String) (t : T) (hne : fileNames ≠ [])
    (hfail : ∃ n ∈ fileNames, files n = RuleFile.missing) :
    ∃ pre name post, fileNames = pre ++ name :: post ∧
      (∀ n ∈ pre, files n ≠ RuleFile.missing) ∧ files name = RuleFile.missing ∧
      ((∀ n ∈ pre, ∃ lines, files n = RuleFile.text lines) →
        loadRules tree files fileNames t =
            some (false, loadedFrom tree files pre (tree.clear t)) ∧
          (pre = [] → loadRules tree files fileNames t = some (false, tree.clear t))) := by
  obtain ⟨pre, name, post, hsplit, hpre, hname⟩ := first_missing files fileNames hfail
  refine ⟨pre, name, post, hsplit, hpre, hname, fun hread => ?_⟩
  have hrun : loadRules tree files fileNames t =
      some (false, loadedFrom tree files pre (tree.clear t)) := by
    unfold loadRules
    rw [if_neg (by simpa using hne), hsplit]
    exact loadFiles_before_missing tree files name post hname pre (tree.clear t) hread
  refine ⟨hrun, fun h => ?_⟩
  rw [hrun, h]
  rfl

/-- C9 (amended) at an instance: one file is read to its end, the next cannot
be opened; the call returns false and the tree holds the rule of the first
file only. -/
theorem loadRules_open_failure_witness :
    (∃ pre name post, ["a.rules", "missing.rules"] = pre ++ name :: post ∧
      (∀ n ∈ pre, sampleFiles n ≠ RuleFile.missing) ∧ sampleFiles name = RuleFile.missing ∧
      ((∀ n ∈ pre, ∃ lines, sampleFiles n = RuleFile.text lines) →
        loadRules listTree sampleFiles ["a.rules", "missing.rules"] ["ads.example"] =
            some (false, loadedFrom listTree sampleFiles pre (listTree.clear ["ads.example"])) ∧
          (pre = [] →
            loadRules listTree sampleFiles ["a.rules", "missing.rules"] ["ads.example"] =
              some (false, listTree.clear ["ads.example"])))) ∧
    loadRules listTree sampleFiles ["a.rules", "missing.rules"] ["ads.example"] =
      some (false, loadedFrom listTree sampleFiles ["a.rules"] (listTree.clear ["ads.example"])) ∧
    loadedFrom listTree sampleFiles ["a.rules"] (listTree.clear ["ads.example"]) =
      ["tracker.net"] :=
  ⟨loadRules_open_failure listTree sampleFiles ["a.rules", "missing.rules"] ["ads.example"]
      (by decide) ⟨"missing.rules", by decide, by decide⟩,
   by decide, by decide⟩

/-! ## What the scan loop computes (C12) -/

theorem isVowel_of_isdigit (c : Char) (h : isdigit c = true) : isVowel c = false := by
  cases hv : isVowel c with
  | false => rfl
  | true =>
    have hm : c ∈ "aeiouAEIOU".toList := List.mem_of_elem_eq_true hv
    have hall : ∀ v ∈ "aeiouAEIOU".toList, isdigit v = false := by decide
    rw [hall c hm] at h
    cases h

theorem scanStep_digit (s : Scan) (c : Char) (hgs : s.gs = 0) (hd : isdigit c = true) :
    scanStep s c = { gon := s.gon + 1, gs := 0, bgs := if s.bgs < 1 then 1 else s.bgs,
                     vc := s.vc, cc := s.cc } := by
  cases s with
  | mk gon gs bgs vc cc =>
    simp only at hgs
    subst hgs
    by_cases hb : bgs < 1
    · simp [scanStep, hd, hb]
    · simp [scanStep, hd, hb]

theorem scanStep_other (s : Scan) (c : Char) (hgs : s.gs = 0) (hd : isdigit c = false) :
    scanStep s c = { gon := s.gon, gs := 0, bgs := s.bgs,
                     vc := if isVowel c then s.vc + 1 else s.vc,
                     cc := if isVowel c then s.cc else s.cc + 1 } := by
  cases s with
  | mk gon gs bgs vc cc =>
    simp only at hgs
    subst hgs
    by_cases hv : isVowel c = true
    · simp [scanStep, hd, hv]
    · simp [scanStep, hd, hv]

/-- The loop invariant of the scan: with `gs = 0` and `bgs ≤ 1` at the start
of a stretch of characters, `gs` is 0 again at its end, `gon` has grown by the
number of digits, `vc` by the number of vowels, and `bgs` is 1 if it was 1 or a
digit was read, and 0 otherwise. -/
theorem foldl_scanStep (l : List Char) :
    ∀ s : Scan, s.gs = 0 → s.bgs ≤ 1 →
      (l.foldl scanStep s).gs = 0 ∧
      (l.foldl scanStep s).gon = s.gon + (l.filter isdigit).length ∧
      (l.foldl scanStep s).vc = s.vc + (l.filter isVowel).length ∧
      (l.foldl scanStep s).bgs = (if s.bgs = 1 ∨ l.any isdigit = true then 1 else 0) := by
  induction l with
  | nil =>
    intro s hgs hb
    refine ⟨hgs, rfl, rfl, ?_⟩
    by_cases h1 : s.bgs = 1
    · simp [h1]
    · have h0 : s.bgs = 0 := by omega
      simp [h0]
  | cons c cs ih =>
    intro s hgs hb
    rw [List.foldl_cons]
    cases hd : isdigit c with
    | true =>
      rw [scanStep_digit s c hgs hd]
      have hv := isVowel_of_isdigit c hd
      obtain ⟨h1, h2, h3, h4⟩ := ih
        { gon := s.gon + 1, gs := 0, bgs := if s.bgs < 1 then 1 else s.bgs, vc := s.vc,
          cc := s.cc } rfl (by simp only; split <;> omega)
      refine ⟨h1, ?_, ?_, ?_⟩
      · rw [h2, List.filter_cons_of_pos hd, List.length_cons]
        simp only
        omega
      · rw [h3, List.filter_cons_of_neg (by rw [hv]; exact Bool.false_ne_true)]
      · rw [h4]
        have hb1 : (if s.bgs < 1 then 1 else s.bgs) = 1 := by split <;> omega
        simp only [hb1, true_or, if_true, List.any_cons, hd, Bool.true_or, or_true]
    | false =>
      rw [scanStep_other s c hgs hd]
      obtain ⟨h1, h2, h3, h4⟩ := ih
        { gon := s.gon, gs := 0, bgs := s.bgs, vc := if isVowel c then s.vc + 1 else s.vc,
          cc := if isVowel c then s.cc else s.cc + 1 } rfl hb
      refine ⟨h1, ?_, ?_, ?_⟩
      · rw [h2, List.filter_cons_of_neg (by rw [hd]; exact Bool.false_ne_true)]
      · rw [h3]
        by_cases hv : isVowel c = true
        · rw [List.filter_cons_of_pos hv, List.length_cons]
          simp only [hv, if_true]
          omega
        · rw [List.filter_cons_of_neg hv]
          simp only [hv]
          rfl
      · rw [h4]
        simp [hd]

/-- What `scan` leaves in the counters, in terms of the text the loop reads. -/
theorem scan_counters (label : List Char) :
    (scan label).gs = 0 ∧
    (scan label).gon = ((cstr label).filter isdigit).length ∧
    (scan label).vc = ((cstr label).filter isVowel).length ∧
    (scan label).bgs = (if (cstr label).any isdigit = true then 1 else 0) := by
  obtain ⟨h1, h2, h3, h4⟩ := foldl_scanStep (cstr label) {} rfl (by decide)
  refine ⟨h1, ?_, ?_, ?_⟩
  · rw [scan, h2]; exact Nat.zero_add _
  · rw [scan, h3]; exact Nat.zero_add _
  · rw [scan, h4]
    simp

set_option maxHeartbeats 0 in
set_option maxRecDepth 1000000 in
/-- The binary32 test of the source agrees with the exact comparison of the
ratio with 3/10 for every label of 10 to 63 characters: checked case by
case. -/
theorem f32_ratio_cases : ∀ len : Fin 64, ∀ vc : Fin 64, vc.val ≤ len.val → 10 ≤ len.val →
    F32.lt (F32.div (F32.ofNat vc.val) (F32.ofNat len.val)) F32.lit03 =
      decide (10 * vc.val < 3 * len.val) := by
  decide

theorem f32_ratio (vc len : Nat) (h1 : vc ≤ len) (h2 : 10 ≤ len) (h3 : len ≤ 63) :
    F32.lt (F32.div (F32.ofNat vc) (F32.ofNat len)) F32.lit03 = decide (10 * vc < 3 * len) :=
  f32_ratio_cases ⟨len, by omega⟩ ⟨vc, by omega⟩ h1 h2

theorem vowels_cstr_le (label : List Char) :
    ((cstr label).filter isVowel).length ≤ label.length :=
  (List.length_filter_le _ _).trans (cstr_leading label).length_le

/-- The label test of the source on a name with a period whose first label has
10 to 63 characters, in terms of the text the scan reads. -/
theorem isRandomLabel_eq (name : List Char) (hdot : name.contains '.' = true)
    (h10 : 10 ≤ (firstLabel name).length) (h63 : (firstLabel name).length ≤ 63) :
    isRandomLabel name =
      (decide (2 ≤ ((cstr (firstLabel name)).filter isdigit).length) ||
        decide (10 * ((cstr (firstLabel name)).filter isVowel).length <
          3 * (firstLabel name).length)) := by
  obtain ⟨_, hgon, hvc, hbgs⟩ := scan_counters (firstLabel name)
  have hb4 : ¬ 4 < (scan (firstLabel name)).bgs := by
    rw [hbgs]
    split <;> omega
  have hr := f32_ratio (scan (firstLabel name)).vc (firstLabel name).length
    (by rw [hvc]; exact vowels_cstr_le _) h10 h63
  unfold isRandomLabel
  rw [hdot]
  simp only [Bool.not_true, Bool.false_eq_true, if_false, Nat.not_lt.mpr h10, hb4, hr]
  rw [hgon, hvc]
  by_cases hd : 2 ≤ ((cstr (firstLabel name)).filter isdigit).length
  · have hd' : 1 < ((cstr (firstLabel name)).filter isdigit).length := hd
    simp [hd, hd']
  · have hd' : ¬ 1 < ((cstr (firstLabel name)).filter isdigit).length := hd
    simp only [hd', if_false, hd, decide_False, Bool.false_or]
    split <;> simp_all

theorem isRandomDomain_without_period (name : String)
    (h : name.toList.contains '.' = false) : isRandomDomain name = false := by
  have hstrip : stripWww name.toList = name.toList := by
    unfold stripWww
    rw [if_neg]
    intro hp
    obtain ⟨rest, hrest⟩ := List.isPrefixOf_iff_prefix.mp hp
    have hm : '.' ∈ name.toList := by
      rw [← hrest]
      exact List.mem_append_left _ (by decide)
    have ht : name.toList.contains '.' = true := List.elem_eq_true_of_mem hm
    rw [h] at ht
    cases ht
  unfold isRandomDomain
  simp only [hstrip]
  split
  · rfl
  · unfold isRandomLabel
    rw [h]
    rfl

/-- C12 as stated fails: the name `aeiouaeiou` + NUL + `12.com` reaches the
scan (one period, no `www.`, a first label of 13 characters) and its first
label contains two ASCII digits, yet `isRandomDomain` returns false: the loop
reads `name.c_str()` and stops at the NUL, so `gon` is 0, not 2, and the ten
vowels out of thirteen characters do not pass the ratio test. -/
theorem isRandomDomain_scan_stops_at_nul :
    (stripWww "aeiouaeiou\x0012.com".toList).contains '.' = true ∧
    tooManyLabels (stripWww "aeiouaeiou\x0012.com".toList) = false ∧
    firstLabel (stripWww "aeiouaeiou\x0012.com".toList) = "aeiouaeiou\x0012".toList ∧
    "aeiouaeiou\x0012".toList.length = 13 ∧
    ("aeiouaeiou\x0012".toList.filter isdigit).length = 2 ∧
    (scan "aeiouaeiou\x0012".toList).gon = 0 ∧
    (scan "aeiouaeiou\x0012".toList).bgs = 0 ∧
    isRandomDomain "aeiouaeiou\x0012.com" = false := by
  refine ⟨by decide, by decide, by decide, by decide, by decide, by decide, by decide,
    by decide⟩

/-- C12, amended. The scan loop of `isRandomDomain` reads the label as a C
string, that is, up to its first NUL character (all of it when there is none),
and resets `gs` after every digit. On every label: at loop exit `gs` is 0,
`bgs` is 1 if the text read contains an ASCII digit and 0 otherwise (so the
test `bgs > 4` never succeeds), `gon` is the number of ASCII digits of the text
read and `vc` the number of its vowels. Hence, for every name that reaches the
scan (a period after the optional `www.` strip, the label guard passed, a first
label `L` of 10 to 63 characters), the function returns true if and only if the
text read of `L` has at least two ASCII digits or `10 * vc < 3 * |L|`, `|L|`
being the full length of `L`; when `L` has no NUL this is: `L` contains at
least two ASCII digits or the exact ratio of its vowels is below 3/10. And the
function returns false for every name without a period. -/
theorem isRandomDomain_scan_result (name : String) (label : List Char) :
    ((scan label).gs = 0 ∧
      (scan label).bgs = (if (cstr label).any isdigit = true then 1 else 0) ∧
      ¬ 4 < (scan label).bgs ∧
      (scan label).gon = ((cstr label).filter isdigit).length ∧
      (scan label).vc = ((cstr label).filter isVowel).length) ∧
    ('\x00' ∉ label → cstr label = label) ∧
    ((stripWww name.toList).contains '.' = true →
      tooManyLabels (stripWww name.toList) = false →
      10 ≤ (firstLabel (stripWww name.toList)).length →
      (firstLabel (stripWww name.toList)).length ≤ 63 →
      (isRandomDomain name = true ↔
        2 ≤ ((cstr (firstLabel (stripWww name.toList))).filter isdigit).length ∨
        10 * ((cstr (firstLabel (stripWww name.toList))).filter isVowel).length <
          3 * (firstLabel (stripWww name.toList)).length) ∧
      ('\x00' ∉ firstLabel (stripWww name.toList) →
        (isRandomDomain name = true ↔
          2 ≤ ((firstLabel (stripWww name.toList)).filter isdigit).length ∨
          10 * ((firstLabel (stripWww name.toList)).filter isVowel).length <
            3 * (firstLabel (stripWww name.toList)).length))) ∧
    (name.toList.contains '.' = false → isRandomDomain name = false) := by
  obtain ⟨hgs, hgon, hvc, hbgs⟩ := scan_counters label
  refine ⟨⟨hgs, hbgs, ?_, hgon, hvc⟩, cstr_of_no_nul label, ?_,
    isRandomDomain_without_period name⟩
  · rw [hbgs]
    split <;> omega
  · intro hdot hguard h10 h63
    have hmain : isRandomDomain name = true ↔
        2 ≤ ((cstr (firstLabel (stripWww name.toList))).filter isdigit).length ∨
        10 * ((cstr (firstLabel (stripWww name.toList))).filter isVowel).length <
          3 * (firstLabel (stripWww name.toList)).length := by
      rw [isRandomDomain_of_guard_false name hguard,
        isRandomLabel_eq _ hdot h10 h63, Bool.or_eq_true, decide_eq_true_iff,
        decide_eq_true_iff]
    refine ⟨hmain, fun h0 => ?_⟩
    rw [cstr_of_no_nul _ h0] at hmain
    exact hmain

/-- C12 (amended) at instances: `aeiouaeiou12.com` reaches the scan and is
judged random by its two digits; `localhost` has no period. -/
theorem isRandomDomain_scan_result_witness :
    (isRandomDomain "aeiouaeiou12.com" = true ↔
      2 ≤ ((cstr (firstLabel (stripWww "aeiouaeiou12.com".toList))).filter isdigit).length ∨
      10 * ((cstr (firstLabel (stripWww "aeiouaeiou12.com".toList))).filter isVowel).length <
        3 * (firstLabel (stripWww "aeiouaeiou12.com".toList)).length) ∧
    isRandomDomain "localhost" = false :=
  ⟨((isRandomDomain_scan_result "aeiouaeiou12.com" []).2.2.1 (by decide) (by decide)
      (by decide) (by decide)).1,
   (isRandomDomain_scan_result "localhost" []).2.2.2 (by decide)⟩

end dnsblocker

/-! ## Properties of the wire codec -/

namespace dns

open dnsblocker

/-! ## What the encoder writes -/

theorem write_bind_write (bio : BufferIO) (a b : List Nat) :
    (bio.write a).bind (fun bio => bio.write b) = bio.write (a ++ b) := by
  unfold BufferIO.write
  by_cases h1 : bio.cursor + a.length ≤ bio.capacity
  · rw [if_pos h1]
    simp only [Option.some_bind, List.length_append, List.append_assoc, Nat.add_assoc]
  · rw [if_neg h1, if_neg]
    · rfl
    · rw [List.length_append]
      omega

theorem encodeHeader_eq (bio : BufferIO) (header : dns_header_t) :
    encodeHeader bio header = bio.write (headerBytes header) := by
  simp only [encodeHeader, BufferIO.writeU16, Option.bind_eq_bind, headerBytes]
  rw [← write_bind_write, ← write_bind_write, ← write_bind_write, ← write_bind_write,
    ← write_bind_write]
  simp only [Option.bind_assoc]

theorem write_bind_encodeQuestions (questions : List dns_question_t) :
    ∀ (bio : BufferIO) (a : List Nat),
      (bio.write a).bind (fun bio => encodeQuestions bio questions) =
        bio.write (a ++ questionsBytes questions) := by
  induction questions with
  | nil =>
    intro bio a
    simp only [encodeQuestions, questionsBytes, List.append_nil, Option.bind_some]
  | cons q rest ih =>
    intro bio a
    simp only [encodeQuestions, BufferIO.writeQName, BufferIO.writeU16, Option.bind_eq_bind,
      questionsBytes, ih, write_bind_write, List.append_assoc]

theorem write_bind_encodeRecords (answers : List dns_record_t) :
    ∀ (bio : BufferIO) (a : List Nat),
      (bio.write a).bind (fun bio => encodeRecords bio answers) =
        bio.write (a ++ recordsBytes answers) := by
  induction answers with
  | nil =>
    intro bio a
    simp only [encodeRecords, recordsBytes, List.append_nil, Option.bind_some]
  | cons r rest ih =>
    intro bio a
    simp only [encodeRecords, BufferIO.writeQName, BufferIO.writeU16, BufferIO.writeU32,
      Option.bind_eq_bind, recordsBytes, ih, write_bind_write, List.append_assoc]

/-- Encoding with `dns_encode` writes `messageBytes` in one piece, or fails when they do not
fit, and leaves the message with the counted header. -/
theorem dns_encode_eq (bio : BufferIO) (message : dns_message_t) :
    dns_encode bio message =
      (bio.write (messageBytes message)).map
        (fun bio => ({ message with header := countedHeader message }, bio)) := by
  unfold dns_encode
  simp only [Option.bind_eq_bind, encodeHeader_eq]
  rw [← Option.bind_assoc, write_bind_encodeQuestions, ← Option.bind_assoc,
    write_bind_encodeRecords]
  unfold messageBytes
  cases bio.write (headerBytes (countedHeader message) ++ questionsBytes message.questions ++
    recordsBytes message.answers) <;> rfl

theorem write_fresh (capacity : Nat) (bytes : List Nat) (h : bytes.length ≤ capacity) :
    BufferIO.write { capacity := capacity } bytes =
      some { data := bytes, cursor := bytes.length, capacity := capacity } := by
  unfold BufferIO.write
  rw [if_pos (by simpa using h)]
  simp

/-! ## What the decoder reads back -/

theorem getElem?_of_drop_eq_cons {d : List Nat} {c b : Nat} {rest : List Nat}
    (h : d.drop c = b :: rest) : d[c]? = some b ∧ d.drop (c + 1) = rest := by
  constructor
  · have h0 : (d.drop c)[0]? = some b := by rw [h]; simp
    rw [List.getElem?_drop] at h0
    simpa using h0
  · have h1 : (d.drop c).drop 1 = rest := by rw [h]; rfl
    rw [List.drop_drop] at h1
    rw [← h1]

theorem drop_add_of_drop_eq_append {d : List Nat} {c : Nat} {a rest : List Nat}
    (h : d.drop c = a ++ rest) : d.drop (c + a.length) = rest := by
  have h1 : (d.drop c).drop a.length = rest := by rw [h, List.drop_left]
  rw [List.drop_drop] at h1
  rw [← h1]

theorem readU8_of_drop (d : List Nat) (c cap b : Nat) (rest : List Nat)
    (h : d.drop c = b :: rest) :
    BufferIO.readU8 { data := d, cursor := c, capacity := cap } =
      some (b, { data := d, cursor := c + 1, capacity := cap }) := by
  unfold BufferIO.readU8
  simp only [(getElem?_of_drop_eq_cons h).1]

theorem readU16_of_drop (d : List Nat) (c cap v : Nat) (rest : List Nat) (hv : v < 65536)
    (h : d.drop c = u16Bytes v ++ rest) :
    BufferIO.readU16 { data := d, cursor := c, capacity := cap } =
      some (v, { data := d, cursor := c + 2, capacity := cap }) := by
  have h1 : d.drop c = (v / 256 % 256) :: (v % 256 :: rest) := h
  have h2 : d.drop (c + 1) = v % 256 :: rest := (getElem?_of_drop_eq_cons h1).2
  unfold BufferIO.readU16
  rw [readU8_of_drop d c cap _ _ h1]
  simp only []
  rw [readU8_of_drop d (c + 1) cap _ _ h2]
  simp only [Option.some.injEq, Prod.mk.injEq, and_true]
  omega

theorem joinDots_splitDots (s : List Char) :
    splitDots s ≠ [] ∧ joinDots (splitDots s) = s := by
  induction s with
  | nil => exact ⟨by simp [splitDots], rfl⟩
  | cons c cs ih =>
    obtain ⟨hne, hj⟩ := ih
    by_cases hc : c = '.'
    · refine ⟨by simp [splitDots, hc], ?_⟩
      rw [splitDots, if_pos hc]
      cases hs : splitDots cs with
      | nil => exact absurd hs hne
      | cons l ls =>
        rw [hs] at hj
        rw [joinDots, hj, hc]
        rfl
    · cases hs : splitDots cs with
      | nil => exact absurd hs hne
      | cons l ls =>
        rw [hs] at hj
        have hsp : splitDots (c :: cs) = (c :: l) :: ls := by
          rw [splitDots, if_neg hc, hs]
        rw [hsp]
        refine ⟨by simp, ?_⟩
        cases ls with
        | nil =>
          rw [joinDots] at hj ⊢
          rw [hj]
        | cons l2 ls2 =>
          rw [joinDots] at hj ⊢
          rw [← hj]
          rfl

theorem length_le_sum_succ (labels : List (List Char)) :
    labels.length ≤ (labels.map (fun l => l.length + 1)).sum := by
  induction labels with
  | nil => simp
  | cons l ls ih =>
    simp only [List.length_cons, List.map_cons, List.sum_cons]
    omega

theorem labelsBytes_length (labels : List (List Char)) :
    (labelsBytes labels).length = (labels.map (fun l => l.length + 1)).sum + 1 := by
  induction labels with
  | nil => rfl
  | cons l ls ih =>
    simp only [labelsBytes, labelBytes, List.length_append, List.length_cons, List.length_map,
      ih, List.map_cons, List.sum_cons]
    omega

theorem readLabels_labelsBytes (data : List Nat) (hops : Nat) :
    ∀ (labels : List (List Char)) (fuel pos total : Nat) (rest : List Nat),
      (∀ l ∈ labels, 1 ≤ l.length ∧ l.length ≤ 63) →
      labels.length < fuel →
      total + (labels.map (fun l => l.length + 1)).sum + 1 ≤ 255 →
      data.drop pos = labelsBytes labels ++ rest →
      readLabels data fuel pos hops total =
        some (labels, pos + (labelsBytes labels).length) := by
  intro labels
  induction labels with
  | nil =>
    intro fuel pos total rest _ hfuel _ hdrop
    obtain ⟨f, rfl⟩ : ∃ f, fuel = f + 1 := ⟨fuel - 1, by simp at hfuel; omega⟩
    have h0 : data.drop pos = 0 :: rest := hdrop
    rw [readLabels, (getElem?_of_drop_eq_cons h0).1]
    rfl
  | cons l ls ih =>
    intro fuel pos total rest hvalid hfuel htotal hdrop
    obtain ⟨f, rfl⟩ : ∃ f, fuel = f + 1 := ⟨fuel - 1, by simp at hfuel; omega⟩
    obtain ⟨hl1, hl63⟩ := hvalid l (List.mem_cons_self _ _)
    have h0 : data.drop pos = l.length :: (l.map Char.toNat ++ (labelsBytes ls ++ rest)) := by
      rw [hdrop]
      simp [labelsBytes, labelBytes]
    obtain ⟨hget, hdrop1⟩ := getElem?_of_drop_eq_cons h0
    have hlen : (l.map Char.toNat).length = l.length := List.length_map _ _
    have htake : (data.drop (pos + 1)).take l.length = l.map Char.toNat := by
      rw [hdrop1, ← hlen, List.take_left]
    have hdrop2 : data.drop (pos + 1 + l.length) = labelsBytes ls ++ rest := by
      have := drop_add_of_drop_eq_append hdrop1
      rwa [hlen] at this
    have hsum : (List.map (fun l => l.length + 1) (l :: ls)).sum =
        (l.length + 1) + (ls.map (fun l => l.length + 1)).sum := by
      simp
    rw [hsum] at htotal
    have hrec := ih f (pos + 1 + l.length) (total + (l.length + 1)) rest
      (fun l' hl' => hvalid l' (List.mem_cons_of_mem _ hl'))
      (by simp at hfuel; omega) (by omega) hdrop2
    rw [readLabels, hget]
    simp only []
    rw [if_neg (by omega), if_neg (by omega), if_neg (by omega), htake, hlen,
      if_neg (by omega), if_neg (by omega), hrec]
    simp only [List.map_map, Option.some.injEq, Prod.mk.injEq, List.cons.injEq, and_true]
    refine ⟨?_, ?_⟩
    · have : (Char.ofNat ∘ Char.toNat) = id := by
        funext c
        simp
      rw [this, List.map_id]
    · simp [labelsBytes, labelBytes]
      omega

theorem validName_iff (name : String) :
    validName name = true ↔
      (∀ l ∈ splitDots name.toList, 1 ≤ l.length ∧ l.length ≤ 63 ∧ ∀ c ∈ l, c.toNat < 256) ∧
      ((splitDots name.toList).map (fun l => l.length + 1)).sum + 1 ≤ 255 := by
  simp [validName, List.all_eq_true, and_assoc]

theorem readQName_of_drop (d : List Nat) (c cap : Nat) (name : String) (rest : List Nat)
    (hv : validName name = true) (h : d.drop c = qnameBytes name ++ rest) :
    BufferIO.readQName { data := d, cursor := c, capacity := cap } =
      some (name, { data := d, cursor := c + (qnameBytes name).length, capacity := cap }) := by
  obtain ⟨hlabels, hsum⟩ := (validName_iff name).mp hv
  have hlen := length_le_sum_succ (splitDots name.toList)
  have hread := readLabels_labelsBytes d 0 (splitDots name.toList) 256 c 0 rest
    (fun l hl => ⟨(hlabels l hl).1, (hlabels l hl).2.1⟩) (by omega) (by omega) h
  unfold BufferIO.readQName
  simp only [hread, (joinDots_splitDots name.toList).2]
  rfl

theorem decodeHeader_of_drop (d : List Nat) (c cap : Nat) (header : dns_header_t)
    (rest : List Nat)
    (h1 : header.id < 65536) (h2 : header.fields < 65536) (h3 : header.qdcount < 65536)
    (h4 : header.ancount < 65536) (h5 : header.nscount < 65536) (h6 : header.arcount < 65536)
    (h : d.drop c = headerBytes header ++ rest) :
    decodeHeader { data := d, cursor := c, capacity := cap } =
      some (header, { data := d, cursor := c + 12, capacity := cap }) ∧
    d.drop (c + 12) = rest := by
  have e1 : d.drop c = u16Bytes header.id ++ (u16Bytes header.fields ++
      (u16Bytes header.qdcount ++ (u16Bytes header.ancount ++ (u16Bytes header.nscount ++
      (u16Bytes header.arcount ++ rest))))) := by
    rw [h, headerBytes]
    simp only [List.append_assoc]
  have e2 := drop_add_of_drop_eq_append e1
  have e3 := drop_add_of_drop_eq_append e2
  have e4 := drop_add_of_drop_eq_append e3
  have e5 := drop_add_of_drop_eq_append e4
  have e6 := drop_add_of_drop_eq_append e5
  have e7 := drop_add_of_drop_eq_append e6
  have l2 : ∀ v, (u16Bytes v).length = 2 := fun _ => rfl
  simp only [l2] at e2 e3 e4 e5 e6 e7
  refine ⟨?_, by simpa [Nat.add_assoc] using e7⟩
  unfold decodeHeader
  simp only [Option.bind_eq_bind, readU16_of_drop d c cap _ _ h1 e1,
    readU16_of_drop d _ cap _ _ h2 e2, readU16_of_drop d _ cap _ _ h3 e3,
    readU16_of_drop d _ cap _ _ h4 e4, readU16_of_drop d _ cap _ _ h5 e5,
    readU16_of_drop d _ cap _ _ h6 e6, Option.some_bind]
  rfl

theorem decodeQuestions_of_drop (d : List Nat) (cap : Nat) :
    ∀ (questions : List dns_question_t) (c : Nat) (rest : List Nat),
      (∀ q ∈ questions, validName q.qname = true ∧ q.type < 65536 ∧ q.clazz < 65536) →
      d.drop c = questionsBytes questions ++ rest →
      decodeQuestions { data := d, cursor := c, capacity := cap } questions.length =
        some (questions,
          { data := d, cursor := c + (questionsBytes questions).length, capacity := cap }) := by
  intro questions
  induction questions with
  | nil => intro c rest _ _; rfl
  | cons q qs ih =>
    intro c rest hvalid hdrop
    obtain ⟨hname, htype, hclazz⟩ := hvalid q (List.mem_cons_self _ _)
    have e1 : d.drop c = qnameBytes q.qname ++ (u16Bytes q.type ++ (u16Bytes q.clazz ++
        (questionsBytes qs ++ rest))) := by
      rw [hdrop, questionsBytes]
      simp only [List.append_assoc]
    have e2 := drop_add_of_drop_eq_append e1
    have e3 := drop_add_of_drop_eq_append e2
    have e4 := drop_add_of_drop_eq_append e3
    have l2 : ∀ v, (u16Bytes v).length = 2 := fun _ => rfl
    simp only [l2] at e3 e4
    have hrec := ih _ rest (fun q' hq' => hvalid q' (List.mem_cons_of_mem _ hq')) e4
    simp only [List.length_cons, decodeQuestions, Option.bind_eq_bind,
      readQName_of_drop d c cap q.qname _ hname e1, readU16_of_drop d _ cap _ _ htype e2,
      readU16_of_drop d _ cap _ _ hclazz e3, hrec, Option.some_bind]
    simp only [questionsBytes, List.length_append, l2, Nat.add_assoc]
    rfl

/-- C10 as stated fails: the sample response has a supported question and one
A answer; a buffer of 512 bytes holds it; decoding the bytes written by
`dns_encode` succeeds and gives the header and the question back, but no
answer, so the decoded message is not the encoded one. -/
theorem dns_decode_drops_answers :
    ((dns_encode { capacity := 512 } sampleMessage).bind
        (fun r => dns_decode r.2.rewind {})).map (fun r => r.1) =
      some { header := sampleMessage.header, questions := sampleMessage.questions,
             answers := [] } ∧
    sampleMessage.answers ≠ [] ∧
    (dns_encode { capacity := 512 } sampleMessage).map (fun r => r.1) = some sampleMessage := by
  refine ⟨by decide, by decide, by decide⟩

/-- C10, amended: for every message whose id and fields fit 16 bits, whose
questions (fewer than 65536) have names valid on the wire and 16-bit types and
classes, and whatever its answers, and for every buffer large enough to hold
the encoding: `dns_encode` succeeds and leaves the message with its counts set
(`qdcount` the number of questions, `ancount` the number of answers, the other
two zero); `dns_decode` of the bytes written succeeds and yields that header
and the same questions, and always an empty answer list. Hence the decoded
message equals the encoded one exactly when the message has no answers. -/
theorem dns_decode_dns_encode (message stale : dns_message_t) (capacity : Nat)
    (hid : message.header.id < 65536) (hfields : message.header.fields < 65536)
    (hcount : message.questions.length < 65536)
    (hq : ∀ q ∈ message.questions,
      validName q.qname = true ∧ q.type < 65536 ∧ q.clazz < 65536)
    (hcap : (messageBytes message).length ≤ capacity) :
    ∃ encoded bio decoded bio',
      dns_encode { capacity := capacity } message = some (encoded, bio) ∧
      encoded.questions = message.questions ∧ encoded.answers = message.answers ∧
      encoded.header = { id := message.header.id, fields := message.header.fields,
                         qdcount := message.questions.length,
                         ancount := message.answers.length % 65536,
                         nscount := 0, arcount := 0 } ∧
      dns_decode bio.rewind stale = some (decoded, bio') ∧
      decoded.header = encoded.header ∧ decoded.questions = message.questions ∧
      decoded.answers = [] ∧
      (decoded = encoded ↔ message.answers = []) := by
  have hmod : message.questions.length % 65536 = message.questions.length :=
    Nat.mod_eq_of_lt hcount
  have hhdr : countedHeader message =
      { id := message.header.id, fields := message.header.fields,
        qdcount := message.questions.length, ancount := message.answers.length % 65536,
        nscount := 0, arcount := 0 } := by
    unfold countedHeader
    rw [hmod]
  have henc : dns_encode { capacity := capacity } message =
      some ({ message with header := countedHeader message },
        { data := messageBytes message, cursor := (messageBytes message).length,
          capacity := capacity }) := by
    rw [dns_encode_eq, write_fresh capacity _ hcap]
    rfl
  have hdrop : (messageBytes message).drop 0 = headerBytes (countedHeader message) ++
      (questionsBytes message.questions ++ recordsBytes message.answers) := by
    rw [List.drop_zero, messageBytes, List.append_assoc]
  obtain ⟨hdec1, hdrop2⟩ := decodeHeader_of_drop (messageBytes message) 0 capacity
    (countedHeader message) _ hid hfields (Nat.mod_lt _ (by decide)) (Nat.mod_lt _ (by decide))
    (show (0 : Nat) < 65536 by decide) (show (0 : Nat) < 65536 by decide) hdrop
  have hdec2 := decodeQuestions_of_drop (messageBytes message) capacity message.questions
    (0 + 12) (recordsBytes message.answers) hq hdrop2
  have hqd : (countedHeader message).qdcount = message.questions.length := by
    rw [hhdr]
  have hdec : dns_decode
      { data := messageBytes message, cursor := 0, capacity := capacity } stale =
      some ({ header := countedHeader message, questions := message.questions, answers := [] },
        { data := messageBytes message,
          cursor := 0 + 12 + (questionsBytes message.questions).length,
          capacity := capacity }) := by
    unfold dns_decode
    simp only [Option.bind_eq_bind, hdec1, Option.some_bind, hqd, hdec2]
    rfl
  refine ⟨_, _, _, _, henc, rfl, rfl, hhdr, hdec, rfl, rfl, rfl, ?_⟩
  constructor
  · intro h
    have := congrArg dns_message_t.answers h
    exact this.symm
  · intro h
    cases message with
    | mk header questions answers =>
      simp only at h
      subst h
      rfl

/-- C10 (amended) at an instance: the sample response in a 512-byte buffer. -/
theorem dns_decode_dns_encode_witness :
    ∃ encoded bio decoded bio',
      dns_encode { capacity := 512 } sampleMessage = some (encoded, bio) ∧
      encoded.questions = sampleMessage.questions ∧ encoded.answers = sampleMessage.answers ∧
      encoded.header = { id := sampleMessage.header.id, fields := sampleMessage.header.fields,
                         qdcount := sampleMessage.questions.length,
                         ancount := sampleMessage.answers.length % 65536,
                         nscount := 0, arcount := 0 } ∧
      dns_decode bio.rewind {} = some (decoded, bio') ∧
      decoded.header = encoded.header ∧ decoded.questions = sampleMessage.questions ∧
      decoded.answers = [] ∧
      (decoded = encoded ↔ sampleMessage.answers = []) :=
  dns_decode_dns_encode sampleMessage {} 512 (by decide) (by decide) (by decide) (by decide)
    (by decide)

end dns

/-! ## Properties of the event list -/

/-- C11: `Monitor::push` on a list holding more than `MAX_ENTRIES` (1000)
events first cuts the list down to its first `MAX_ENTRIES - 1` events, so the
oldest events stay where they are and the events at the tail, the most recently
pushed, are dropped; the new event is then appended at the tail and exactly
`MAX_ENTRIES` events are left. On a list holding `MAX_ENTRIES` events or fewer
it only appends. -/
theorem Monitor.push_keeps_oldest (m : Monitor) (event : Event) :
    (Monitor.MAX_ENTRIES < m.events_.length →
      (m.push event).events_ = m.events_.take (Monitor.MAX_ENTRIES - 1) ++ [event] ∧
      (m.push event).events_.length = Monitor.MAX_ENTRIES ∧
      (∀ i, i < Monitor.MAX_ENTRIES - 1 → (m.push event).events_[i]? = m.events_[i]?) ∧
      (m.push event).events_[Monitor.MAX_ENTRIES - 1]? = some event ∧
      m.events_ = m.events_.take (Monitor.MAX_ENTRIES - 1) ++
        m.events_.drop (Monitor.MAX_ENTRIES - 1) ∧
      2 ≤ (m.events_.drop (Monitor.MAX_ENTRIES - 1)).length) ∧
    (m.events_.length ≤ Monitor.MAX_ENTRIES →
      (m.push event).events_ = m.events_ ++ [event] ∧
      (m.push event).events_.length = m.events_.length + 1) := by
  constructor
  · intro h
    have hpush : (m.push event).events_ =
        m.events_.take (Monitor.MAX_ENTRIES - 1) ++ [event] := by
      unfold Monitor.push
      rw [if_pos h]
    have hlen : (m.events_.take (Monitor.MAX_ENTRIES - 1)).length = Monitor.MAX_ENTRIES - 1 := by
      rw [List.length_take]
      exact Nat.min_eq_left (by unfold Monitor.MAX_ENTRIES at h ⊢; omega)
    refine ⟨hpush, ?_, ?_, ?_, (List.take_append_drop _ _).symm, ?_⟩
    · rw [hpush, List.length_append, hlen]
      rfl
    · intro i hi
      rw [hpush, List.getElem?_append_left (by rw [hlen]; exact hi), List.getElem?_take_of_lt hi]
    · rw [hpush, List.getElem?_append_right (by rw [hlen]), hlen, Nat.sub_self]
      rfl
    · rw [List.length_drop]
      unfold Monitor.MAX_ENTRIES at h ⊢
      omega
  · intro h
    have hpush : (m.push event).events_ = m.events_ ++ [event] := by
      unfold Monitor.push
      rw [if_neg (Nat.not_lt.mpr h)]
    exact ⟨hpush, by rw [hpush, List.length_append]; rfl⟩

/-- C11 at instances: a monitor with 1001 events, where the push drops the two
newest and keeps the 999 oldest, and a monitor with 1000 events, where the
push only appends. -/
theorem Monitor.push_keeps_oldest_witness :
    ((sampleMonitor 1001).push (sampleEvent 2000)).events_ =
        (sampleMonitor 1001).events_.take (Monitor.MAX_ENTRIES - 1) ++ [sampleEvent 2000] ∧
      ((sampleMonitor 1001).push (sampleEvent 2000)).events_.length = Monitor.MAX_ENTRIES ∧
    ((sampleMonitor 1000).push (sampleEvent 2000)).events_ =
        (sampleMonitor 1000).events_ ++ [sampleEvent 2000] :=
  ⟨((Monitor.push_keeps_oldest (sampleMonitor 1001) (sampleEvent 2000)).1
      (by simp [sampleMonitor, Monitor.MAX_ENTRIES])).1,
   ((Monitor.push_keeps_oldest (sampleMonitor 1001) (sampleEvent 2000)).1
      (by simp [sampleMonitor, Monitor.MAX_ENTRIES])).2.1,
   ((Monitor.push_keeps_oldest (sampleMonitor 1000) (sampleEvent 2000)).2
      (by simp [sampleMonitor, Monitor.MAX_ENTRIES])).1⟩
